import Mathlib

/-!
Shallow embedding of the speech boundary detection and trim range
computation engine of the kallio transcription service (the
trim_deadspace endpoint).

Numeric values are rationals.  The per frame RMS loudness values, whose
computation involves a floating point square root, enter the model as an
input list (one rational per frame); everything downstream of them —
percentile thresholding, clustering, the transcript refinement and the
final arbitration — is embedded from the source.  The relevant quotients
of the source (0.12 / frameDuration, sampleRate * frameDuration *
sampleWidth) were checked to be exact in IEEE double arithmetic for every
frame duration the endpoint admits, so rational arithmetic computes the
same integers the source computes.

The transcription call is an external collaborator that can fail; it is
modelled as an input of type Except String (List RawSeg).  Every internal
raise point of the refinement stage (the external call itself, and the
empty-sequence min()/max() calls that fire when the restart cutoff filters
every usable segment away) precedes the first mutation of the response, so
the exception handler of the source — which annotates the transcript field
of the energy stage response and returns it — is modelled by returning the
energy stage response with an error echo attached.

The source files are iterative-editing artifacts and the control flow glue
after the refinement try block is truncated; the per stage logic is taken
from the source as written, and the engine returning the response on the
success path follows the arbiter contract (a result is always produced).
-/

namespace Kallio

/-- Python int() applied to a rational: truncation toward zero. -/
def pyTrunc (q : ℚ) : ℤ := Int.tdiv q.num q.den

/-- Floor of a rational as an integer, via floor division of the
numerator by the (positive) denominator. -/
def qFloorZ (q : ℚ) : ℤ := Int.fdiv q.num q.den

/-- Ceiling of a rational as an integer. -/
def qCeilZ (q : ℚ) : ℤ := -(Int.fdiv (-q.num) q.den)

/-- Number of elements of the Python expression range(0, stop, step) for a
positive step, i.e. max 0 (ceiling of stop / step). -/
def pyRangeCount (stop step : ℤ) : ℕ := (Int.tdiv (stop + step - 1) step).toNat

/-- Maximum of a list of rationals, bottoming out at the head (Python max
over a nonempty sequence). -/
def qListMax (l : List ℚ) : ℚ := l.foldl max (l.headD 0)

/-- Minimum of a list of rationals, bottoming out at the head (Python min
over a nonempty sequence). -/
def qListMin (l : List ℚ) : ℚ := l.foldl min (l.headD 0)

/-- Insertion into an ascending list, used to model the ascending sort
inside the percentile computation. -/
def insertAsc (x : ℚ) : List ℚ → List ℚ
  | [] => [x]
  | y :: ys => if x ≤ y then x :: y :: ys else y :: insertAsc x ys

/-- Ascending insertion sort of the energy values (the sort hidden inside
np.percentile). -/
def sortAsc (l : List ℚ) : List ℚ := l.foldr insertAsc []

/-- Linear interpolation percentile of np.percentile: the q-th percentile
of xs is read off the ascending sort at fractional rank q / 100 * (n - 1),
interpolating linearly between the two neighbouring entries. -/
def percentile (q : ℚ) (xs : List ℚ) : ℚ :=
  let s := sortAsc xs
  let n := s.length
  let rank : ℚ := q / 100 * ((n : ℚ) - 1)
  let lo := (qFloorZ rank).toNat
  let hi := (qCeilZ rank).toNat
  s.getD lo 0 + (s.getD hi 0 - s.getD lo 0) * (rank - (lo : ℚ))

/-- PCM constants of the endpoint: the wav is checked to be 16 kHz mono
with two bytes per sample before analysis begins. -/
def sampleRate : ℕ := 16000

/-- Bytes per sample of the 16-bit PCM input. -/
def sampleWidth : ℕ := 2

/-- frame_ms coercion: every value outside 10 / 20 / 30 becomes 30. -/
def coerceFrameMs (m : ℤ) : ℤ := if m = 10 ∨ m = 20 ∨ m = 30 then m else 30

/-- frame_duration_sec = frame_ms / 1000. -/
def frameDurationSec (fm : ℤ) : ℚ := (fm : ℚ) / 1000

/-- frame_byte_count = int(sample_rate * (frame_ms / 1000) * sample_width);
for the admissible frame durations the product is an exact integer (320,
640 or 960), in IEEE doubles as well as in rationals. -/
def frameByteCount (fm : ℤ) : ℤ :=
  pyTrunc ((sampleRate : ℚ) * frameDurationSec fm * (sampleWidth : ℚ))

/-- Timestamp of the frame starting at byte offset i * fbc:
(offset / sample_width) / sample_rate. -/
def timestampAt (fbc : ℤ) (i : ℕ) : ℚ :=
  ((i : ℚ) * (fbc : ℚ) / (sampleWidth : ℚ)) / (sampleRate : ℚ)

/-- Number of frames produced from an audio buffer of audioLen bytes:
the loop runs offset over range(0, audioLen - fbc + 1, fbc). -/
def numFrames (audioLen : ℕ) (fbc : ℤ) : ℕ :=
  pyRangeCount ((audioLen : ℤ) - fbc + 1) fbc

/-- The Framer: fixed length byte slices of the PCM buffer, taken at
offsets 0, fbc, 2*fbc, ..., any trailing shorter slice dropped. -/
def framerFrames (audio : List ℤ) (fm0 : ℤ) : List (List ℤ) :=
  let fbc := (frameByteCount (coerceFrameMs fm0)).toNat
  (List.range (numFrames audio.length (fbc : ℤ))).map
    (fun i => (audio.drop (i * fbc)).take fbc)

/-- Timestamps attached to the frames of framerFrames. -/
def framerTimestamps (audio : List ℤ) (fm0 : ℤ) : List ℚ :=
  let fbc := frameByteCount (coerceFrameMs fm0)
  (List.range (numFrames audio.length fbc)).map (timestampAt fbc)

/-- Adaptive threshold of the energy detector:
max(percentile60 * 1.5, percentile95 * 0.2, 50.0), folded left to right as
Python max folds its arguments. -/
def thresholdOf (energies : List ℚ) : ℚ :=
  let noiseFloor := percentile 60 energies
  let signalPeak := percentile 95 energies
  max (max (noiseFloor * (3 / 2)) (signalPeak * (1 / 5))) 50

/-- min_active_frames = max(2, int(0.12 / frame_duration_sec)). -/
def minActiveFrames (fm : ℤ) : ℤ :=
  max 2 (pyTrunc ((12 / 100 : ℚ) / frameDurationSec fm))

/-- Per frame activity flags: a frame is active when its RMS reaches the
adaptive threshold. -/
def activeFlags (energies : List ℚ) : List Bool :=
  energies.map (fun e => decide (thresholdOf energies ≤ e))

/-- Worker of the cluster scan: walks the flag list carrying the index of
the currently open run, closing it on the first inactive flag and at the
end of the list. -/
def findClustersGo : List Bool → ℕ → Option ℕ → List (ℕ × ℕ)
  | [], _, none => []
  | [], idx, some s => [(s, idx)]
  | f :: rest, idx, none =>
      if f then findClustersGo rest (idx + 1) (some idx)
      else findClustersGo rest (idx + 1) none
  | f :: rest, idx, some s =>
      if f then findClustersGo rest (idx + 1) (some s)
      else (s, idx) :: findClustersGo rest (idx + 1) none

/-- Maximal runs of active frames, as half open index intervals. -/
def findClusters (flags : List Bool) : List (ℕ × ℕ) :=
  findClustersGo flags 0 none

/-- Runs surviving the minimum duration filter. -/
def survivingClusters (energies : List ℚ) (fm : ℤ) : List (ℕ × ℕ) :=
  (findClusters (activeFlags energies)).filter
    (fun c => decide (minActiveFrames fm ≤ (c.2 : ℤ) - (c.1 : ℤ)))

/-- A word with timestamps, both as delivered by the collaborator and
after the per word normalisation of the refiner. -/
structure Word where
  start : ℚ
  stop : ℚ
  text : String
  deriving DecidableEq

/-- A raw transcript segment as delivered by the external speech
recognition collaborator (stop is the end field of the source, which is a
reserved word here). -/
structure RawSeg where
  start : ℚ
  stop : ℚ
  text : String
  noSpeechProb : ℚ
  words : List Word
  deriving DecidableEq

/-- A transcript segment surviving the quality filter, with the derived
fields firstWordStart / lastWordEnd. -/
structure FSeg where
  start : ℚ
  stop : ℚ
  text : String
  noSpeechProb : ℚ
  words : List Word
  firstWordStart : ℚ
  lastWordEnd : ℚ
  deriving DecidableEq

/-- One segment of the transcript echo attached to the response. -/
structure EchoSeg where
  start : ℚ
  stop : ℚ
  text : String
  words : List Word
  firstWordStart : ℚ
  lastWordEnd : ℚ
  deriving DecidableEq

/-- The transcript field of the response: either the chosen cluster, or
the empty echo, or an error echo from a failed refinement. -/
structure Echo where
  start : Option ℚ
  stop : Option ℚ
  segments : List EchoSeg
  error : Option String
  deriving DecidableEq

/-- The pre / post padding pair of the response. -/
structure Padding where
  pre : ℚ
  post : ℚ
  deriving DecidableEq

/-- The response dictionary of the endpoint. duration is the total
duration of the audio. -/
structure Response where
  speechDetected : Bool
  speechStart : ℚ
  speechEnd : ℚ
  speechDuration : ℚ
  trimStart : ℚ
  trimEnd : ℚ
  duration : ℚ
  confidence : ℚ
  padding : Padding
  analysisSource : String
  transcript : Option Echo
  error : Option String
  deriving DecidableEq

/-- The initial response value: note that analysisSource starts out as
"transcript" and the request paddings are clamped to be nonnegative. -/
def initResponse (pre post : ℚ) : Response where
  speechDetected := false
  speechStart := 0
  speechEnd := 0
  speechDuration := 0
  trimStart := 0
  trimEnd := 0
  duration := 0
  confidence := 0
  padding := { pre := max 0 pre, post := max 0 post }
  analysisSource := "transcript"
  transcript := none
  error := none

/-- The energy stage: framing, RMS thresholding, clustering and the
energy derived window.  The early returns of the source are the error
branch, carrying the response they return; the success branch carries the
updated response together with silence_end_time, which stays in scope for
the refinement stage.  energies abstracts the RMS scan over the frames
(one value per frame; theorems tie its length to the frame count). -/
def energyStage (fm0 : ℤ) (pre post : ℚ) (totalFrames : ℕ)
    (energies : List ℚ) : Except Response (Response × ℚ) :=
  let resp0 := initResponse pre post
  let fm := coerceFrameMs fm0
  let fbc := frameByteCount fm
  if fbc = 0 then
    .error { resp0 with error := some "Frame configuration produced zero-length frames." }
  else
    let audioLen := totalFrames * sampleWidth
    let nF := numFrames audioLen fbc
    let td := (totalFrames : ℚ) / (sampleRate : ℚ)
    if nF = 0 then
      .error { resp0 with duration := td, error := some "Audio too short for analysis." }
    else
      let resp1 := { resp0 with duration := td }
      let fd := frameDurationSec fm
      if energies = [] then
        .error { resp1 with error := some "Unable to analyse audio energy." }
      else
        let cls := survivingClusters energies fm
        if cls = [] then
          .error { resp1 with error := some "Unable to detect speech via energy analysis." }
        else
          let lastC := cls.getLastD (0, 0)
          let firstC := cls.headD (0, 0)
          let silenceEndTime := timestampAt fbc firstC.1
          let clusterStartTime := timestampAt fbc lastC.1
          let lastFrameIdx := min lastC.2 nF - 1
          let clusterEndTime := min td (timestampAt fbc lastFrameIdx + fd)
          let respE := { resp1 with
            speechDetected := true
            speechStart := silenceEndTime
            speechEnd := clusterEndTime
            speechDuration := max 0 (clusterEndTime - clusterStartTime)
            trimStart := max 0 (silenceEndTime - resp1.padding.pre)
            trimEnd := min td (clusterEndTime + resp1.padding.post)
            confidence :=
              ((lastC.2 : ℚ) - (lastC.1 : ℚ)) / ((max 1 energies.length : ℕ) : ℚ) }
          .ok (respE, silenceEndTime)

/-- Word list normalisation of one raw segment: strip each word text,
drop empty words, clamp starts to be nonnegative and ends to their
starts. -/
def processWords (ws : List Word) : List Word :=
  ws.filterMap (fun w =>
    let t := w.text.trim
    if t = "" then none
    else
      let s := max 0 w.start
      some { start := s, stop := max s w.stop, text := t })

/-- The per segment quality filter of the refiner: clamp the segment
times, build the word list (synthesising one pseudo word when the segment
has none but a positive duration), and drop segments that are too short,
too likely to be non speech, or wordless. -/
def processSeg (seg : RawSeg) : Option FSeg :=
  let text := seg.text.trim
  let s := max 0 seg.start
  let e := max s seg.stop
  let nsp := seg.noSpeechProb
  let durationSeg := max 0 (e - s)
  let ws0 := processWords seg.words
  if ws0 = [] ∧ durationSeg ≤ 0 then none
  else
    let ws := if ws0 = [] then [{ start := s, stop := e, text := text : Word }] else ws0
    if durationSeg < 5 / 100 then none
    else if 9 / 10 ≤ nsp then none
    else
      some { start := s, stop := e, text := text, noSpeechProb := nsp, words := ws,
             firstWordStart := (ws.headD { start := 0, stop := 0, text := "" }).start,
             lastWordEnd := qListMax (ws.map (fun w => w.stop)) }

/-- filtered_segments of the refiner. -/
def filterSegments (segs : List RawSeg) : List FSeg :=
  segs.filterMap processSeg

/-- Lowercase and collapse whitespace (join of the lowercased split). -/
def normalizeText (t : String) : String :=
  String.intercalate " " ((t.toLower.split (fun c => c.isWhitespace)).filter
    (fun s => decide (s ≠ "")))

/-- Restriction to segments overlapping the energy window widened by
0.3 s, falling back to all filtered segments when nothing overlaps. -/
def usableOf (windowStart windowEnd : ℚ) (filtered : List FSeg) : List FSeg :=
  let u := filtered.filter (fun s =>
    decide (windowStart - 3 / 10 < s.lastWordEnd ∧ s.firstWordStart < windowEnd + 3 / 10))
  if u = [] then filtered else u

/-- The (firstWordStart, normalized text) projection the restart scan
walks, taken over all filtered segments. -/
def normalizedSegsOf (filtered : List FSeg) : List (ℚ × String) :=
  filtered.map (fun s => (s.firstWordStart, normalizeText s.text))

/-- Lookup in the seen_texts dictionary (most recent binding wins). -/
def seenLookup (seen : List (String × ℚ)) (t : String) : Option ℚ :=
  (seen.find? (fun p => decide (p.1 = t))).map (fun p => p.2)

/-- One step of the restart scan: a text seen before whose new occurrence
starts more than 0.4 s after the remembered one raises the cutoff;
otherwise the remembered start of that text becomes this occurrence. -/
def restartStep (st : List (String × ℚ) × ℚ) (seg : ℚ × String) :
    List (String × ℚ) × ℚ :=
  match seenLookup st.1 seg.2 with
  | some t0 =>
      if 2 / 5 < seg.1 - t0 then (st.1, max st.2 seg.1)
      else ((seg.2, seg.1) :: st.1, st.2)
  | none => ((seg.2, seg.1) :: st.1, st.2)

/-- restart_cutoff after walking all normalized segments in order. -/
def restartCutoffOf (normSegs : List (ℚ × String)) : ℚ :=
  (normSegs.foldl restartStep ([], 0)).2

/-- The usable set after the restart cutoff dropped early segments. -/
def usable2Of (usable : List FSeg) (cutoff : ℚ) : List FSeg :=
  if 0 < cutoff then usable.filter (fun s => decide (cutoff ≤ s.firstWordStart))
  else usable

/-- The effective silence end, raised to the restart cutoff when one was
found. -/
def silenceEnd1Of (s0 cutoff : ℚ) : ℚ :=
  if 0 < cutoff then max s0 cutoff else s0

/-- overall_first_word = max(silence end, min firstWordStart). -/
def overallFirstWordOf (se1 : ℚ) (usable2 : List FSeg) : ℚ :=
  max se1 (qListMin (usable2.map (fun s => s.firstWordStart)))

/-- overall_head_trim = max(0, overall_first_word - prePadding). -/
def overallHeadTrimOf (ofw pre : ℚ) : ℚ := max 0 (ofw - pre)

/-- Backward walk of the tail clustering: absorb the previous segment
while the gap between the start of the current head of the cluster and
that segment's end stays within 1.5 s, stop at the first larger gap. -/
def tailClusterGo : List FSeg → FSeg → List FSeg → List FSeg
  | [], h, t => h :: t
  | s :: rest, h, t =>
      if h.start - s.stop ≤ 3 / 2 then tailClusterGo rest s (h :: t)
      else h :: t

/-- The tail cluster grown from the last usable segment. -/
def tailClusterOf (l : List FSeg) : List FSeg :=
  match l.getLast? with
  | none => []
  | some lastSeg => tailClusterGo l.dropLast.reverse lastSeg []

/-- cluster_end = max lastWordEnd over the tail cluster. -/
def clusterEndOf (cl : List FSeg) : ℚ :=
  qListMax (cl.map (fun s => s.lastWordEnd))

/-- transcript_trim_end = min(total duration, cluster_end + postPadding). -/
def transcriptTrimEndOf (td ce post : ℚ) : ℚ := min td (ce + post)

/-- The transcript echo built from the accepted cluster. -/
def echoOfCluster (ofw ce : ℚ) (cl : List FSeg) : Echo where
  start := some ofw
  stop := some ce
  segments := cl.map (fun s =>
    { start := s.firstWordStart, stop := s.lastWordEnd, text := s.text,
      words := s.words, firstWordStart := s.firstWordStart,
      lastWordEnd := s.lastWordEnd })
  error := none

/-- The response mutation performed when the transcript window is
accepted. -/
def acceptUpdate (respE : Response) (ofw se1 ce headTrim ttEnd : ℚ)
    (cl : List FSeg) : Response :=
  { respE with
    analysisSource := "transcript"
    speechStart := max ofw se1
    speechEnd := ce
    speechDuration := max 0 (ce - max ofw se1)
    trimStart := headTrim
    trimEnd := ttEnd
    confidence :=
      max respE.confidence
        (((cl.map (fun s => 1 - s.noSpeechProb)).sum) / (cl.length : ℚ)) }

/-- The empty transcript echo attached on the success path when the
energy window was kept. -/
def emptyEcho : Echo where
  start := none
  stop := none
  segments := []
  error := none

/-- The final guard of the arbiter: degenerate boundaries clear
speechDetected and annotate, otherwise speechDetected is set and the
transcript echo (the accepted cluster, or the empty echo) attached. -/
def finalGuard (pair : Response × Option Echo) : Response :=
  if pair.1.speechEnd ≤ pair.1.speechStart then
    { pair.1 with
      speechDetected := false
      error := some "Unable to identify speech boundaries from transcript." }
  else
    { pair.1 with
      speechDetected := true
      transcript := some (pair.2.getD emptyEcho) }

/-- Head boundary, tail clustering, the acceptance rule and the final
guard, over the usable segments that survived the restart cutoff. -/
def applyAcceptGuard (respE : Response) (se1 : ℚ) (usable2 : List FSeg) : Response :=
  let ofw := overallFirstWordOf se1 usable2
  let headTrim := overallHeadTrimOf ofw respE.padding.pre
  let cl := tailClusterOf usable2
  let ce := clusterEndOf cl
  let ttEnd := transcriptTrimEndOf respE.duration ce respE.padding.post
  let pair :=
    if headTrim < ttEnd then
      (acceptUpdate respE ofw se1 ce headTrim ttEnd cl,
       some (echoOfCluster ofw ce cl))
    else (respE, (none : Option Echo))
  finalGuard pair

/-- The refinement body: everything inside the try of the refiner.  The
error branch carries the message of the exception the source would raise
(the min() of an empty sequence when the restart cutoff filtered every
usable segment away, or the failure of the external transcription call
threaded in through tr). -/
def refineBody (tr : Except String (List RawSeg)) (respE : Response)
    (s0 : ℚ) : Except String Response := do
  let segs ← tr
  let filtered := filterSegments segs
  if filtered = [] then
    pure { respE with error := some "Transcript contained no spoken words." }
  else
    let usable := usableOf respE.speechStart respE.speechEnd filtered
    let cutoff := restartCutoffOf (normalizedSegsOf filtered)
    let usable2 := usable2Of usable cutoff
    let se1 := silenceEnd1Of s0 cutoff
    if usable2 = [] then .error "min() arg is an empty sequence"
    else pure (applyAcceptGuard respE se1 usable2)

deriving instance DecidableEq for Except

/-- The error echo attached to the transcript field by the exception
handler of the refinement stage. -/
def errorEcho (msg : String) : Echo where
  start := none
  stop := none
  segments := []
  error := some msg

/-- The refinement stage with its exception handler: any failure inside
the body leaves the energy stage response untouched except for an error
echo on the transcript field.  Every raise point of the body precedes the
first response mutation, so the handler always sees the unmutated energy
response. -/
def refineAndFinish (tr : Except String (List RawSeg)) (respE : Response)
    (s0 : ℚ) : Response :=
  match refineBody tr respE s0 with
  | .ok r => r
  | .error e => { respE with transcript := some (errorEcho e) }

/-- The whole engine: energy stage first (its early returns are final),
then the transcript refinement over the surviving response. -/
def trimDeadspace (fm0 : ℤ) (pre post : ℚ) (totalFrames : ℕ)
    (energies : List ℚ) (tr : Except String (List RawSeg)) : Response :=
  match energyStage fm0 pre post totalFrames energies with
  | .error r => r
  | .ok (respE, s0) => refineAndFinish tr respE s0

/-- Default segment used for list indexing with getD. -/
def fsegDefault : FSeg where
  start := 0
  stop := 0
  text := ""
  noSpeechProb := 0
  words := []
  firstWordStart := 0
  lastWordEnd := 0

/-- A maximal contiguous run of active frames: all flags inside the half
open interval are set, and the run cannot be extended on either side. -/
def isMaximalRun (flags : List Bool) (s e : ℕ) : Prop :=
  s < e ∧ e ≤ flags.length ∧
  (∀ i ∈ List.range' s (e - s), flags.getD i false = true) ∧
  (s = 0 ∨ flags.getD (s - 1) false = false) ∧
  (e = flags.length ∨ flags.getD e false = false)

instance instDecIsMaximalRun (flags : List Bool) (s e : ℕ) :
    Decidable (isMaximalRun flags s e) :=
  decidable_of_iff
    (s < e ∧ e ≤ flags.length ∧
      (∀ i ∈ List.range' s (e - s), flags.getD i false = true) ∧
      (s = 0 ∨ flags.getD (s - 1) false = false) ∧
      (e = flags.length ∨ flags.getD e false = false)) Iff.rfl

/-- The boundary chain the specification asserts for detected speech. -/
def BoundaryChain (r : Response) : Prop :=
  0 ≤ r.trimStart ∧ r.trimStart ≤ r.speechStart ∧ r.speechStart ≤ r.speechEnd ∧
  r.trimStart ≤ r.trimEnd ∧ 0 ≤ r.trimEnd ∧ r.trimEnd ≤ r.duration ∧
  (r.speechEnd ≤ r.duration → r.speechEnd ≤ r.trimEnd)

/-- Example energy profile: twenty 30 ms frames, one sustained burst on
frames 14..17.  With 9600 PCM samples the buffer yields exactly twenty
frames and 0.6 s of audio. -/
def exEnergies : List ℚ :=
  List.replicate 14 0 ++ List.replicate 4 400 ++ List.replicate 2 0

/-- Example energy profile with two sustained bursts (frames 4..7 and
14..17), used for the claims about multiple surviving clusters. -/
def exEnergiesTwo : List ℚ :=
  List.replicate 4 0 ++ List.replicate 4 400 ++ List.replicate 6 0 ++
    List.replicate 4 400 ++ List.replicate 2 0

/-- A transcript segment ending well before the energy window, used to
drive the refinement into accepting a degenerate window. -/
def exSegShort : RawSeg where
  start := 0
  stop := 3 / 50
  text := "a"
  noSpeechProb := 0
  words := [{ start := 0, stop := 3 / 50, text := "a" }]

/-- A transcript segment whose word end overruns the audio duration. -/
def exSegLong : RawSeg where
  start := 1 / 2
  stop := 5
  text := "a"
  noSpeechProb := 0
  words := [{ start := 1 / 2, stop := 5, text := "a" }]

/-- The energy stage response for exEnergies with the default paddings. -/
def exRespE : Response :=
  match energyStage 30 (2 / 25) (3 / 5) 9600 exEnergies with
  | .ok (r, _) => r
  | .error r => r

/-- A repeated text at t = 0 hiding inside the energy window. -/
def exSegRepeatA : RawSeg where
  start := 0
  stop := 1 / 2
  text := "x"
  noSpeechProb := 0
  words := [{ start := 0, stop := 1 / 2, text := "x" }]

/-- The same text again at t = 3, far outside the energy window. -/
def exSegRepeatB : RawSeg where
  start := 3
  stop := 7 / 2
  text := "x"
  noSpeechProb := 0
  words := [{ start := 3, stop := 7 / 2, text := "x" }]

/-- C3: for every nonempty frame sequence the adaptive threshold is
exactly max(p60 * 1.5, p95 * 0.2, 50.0) over the per frame RMS values,
and a frame is active exactly when its RMS reaches that threshold. -/
theorem c3_threshold_formula_and_active_iff (energies : List ℚ)
    (hne : energies ≠ []) :
    thresholdOf energies =
      max (max (percentile 60 energies * (3 / 2)) (percentile 95 energies * (1 / 5))) 50 ∧
    ∀ i, i < energies.length →
      ((activeFlags energies).getD i false = true ↔
        thresholdOf energies ≤ energies.getD i 0) := by
  refine ⟨rfl, ?_⟩
  intro i hi
  have hif : i < (activeFlags energies).length := by
    simpa [activeFlags] using hi
  rw [List.getD_eq_getElem _ _ hif, List.getD_eq_getElem _ _ hi]
  simp [activeFlags]

/-- Witness for C3 at the example energy profile: the threshold identity
and the activity of frame 14. -/
theorem c3_threshold_formula_and_active_iff_witness :
    thresholdOf exEnergies =
      max (max (percentile 60 exEnergies * (3 / 2)) (percentile 95 exEnergies * (1 / 5))) 50 ∧
    ((activeFlags exEnergies).getD 14 false = true ↔
      thresholdOf exEnergies ≤ exEnergies.getD 14 0) :=
  ⟨(c3_threshold_formula_and_active_iff exEnergies
      (by with_unfolding_all exact of_decide_eq_true rfl)).1,
   (c3_threshold_formula_and_active_iff exEnergies
      (by with_unfolding_all exact of_decide_eq_true rfl)).2 14
      (by with_unfolding_all exact of_decide_eq_true rfl)⟩

/-- The full engine run on the example profile with an empty transcript
list. -/
def emptyTranscriptRun : Response :=
  trimDeadspace 30 (2 / 25) (3 / 5) 9600 exEnergies (.ok [])

/-- C7: with a successful energy stage and an empty transcript list, the
engine keeps the energy derived window, attaches only the recoverable
annotation and leaves the transcript echo absent — but analysisSource is
returned as "transcript" (its initial value; the source never assigns
"energy" anywhere), contradicting the claim that it is "energy". -/
theorem c7_empty_transcript_result :
    emptyTranscriptRun = trimDeadspace 30 (2 / 25) (3 / 5) 9600 exEnergies (.ok []) ∧
    emptyTranscriptRun.speechDetected = true ∧ emptyTranscriptRun.transcript = none ∧
    emptyTranscriptRun.error = some "Transcript contained no spoken words." ∧
    emptyTranscriptRun.speechStart = 21 / 50 ∧ emptyTranscriptRun.speechEnd = 27 / 50 ∧
    emptyTranscriptRun.trimStart = 17 / 50 ∧ emptyTranscriptRun.trimEnd = 3 / 5 ∧
    emptyTranscriptRun.duration = 3 / 5 ∧
    emptyTranscriptRun.analysisSource = "transcript" ∧
    emptyTranscriptRun.analysisSource ≠ "energy" := by
  with_unfolding_all exact of_decide_eq_true rfl

theorem coerceFrameMs_cases (fm0 : ℤ) :
    coerceFrameMs fm0 = 10 ∨ coerceFrameMs fm0 = 20 ∨ coerceFrameMs fm0 = 30 := by
  unfold coerceFrameMs
  split
  · next h => exact h
  · right; right; rfl

theorem frameByteCount_eq_32mul (fm0 : ℤ) :
    frameByteCount (coerceFrameMs fm0) = 32 * coerceFrameMs fm0 := by
  rcases coerceFrameMs_cases fm0 with h | h | h <;> rw [h] <;>
    with_unfolding_all exact of_decide_eq_true rfl

theorem frameByteCount_pos (fm0 : ℤ) : 0 < frameByteCount (coerceFrameMs fm0) := by
  rcases coerceFrameMs_cases fm0 with h | h | h <;> rw [h] <;>
    with_unfolding_all exact of_decide_eq_true rfl

theorem numFrames_eq_div (L : ℕ) (fbc : ℤ) (h : 0 < fbc) :
    numFrames L fbc = L / fbc.toNat := by
  obtain ⟨n, rfl⟩ : ∃ n : ℕ, fbc = (n : ℤ) := ⟨fbc.toNat, (Int.toNat_of_nonneg h.le).symm⟩
  unfold numFrames pyRangeCount
  have h1 : (L : ℤ) - (n : ℤ) + 1 + (n : ℤ) - 1 = (L : ℤ) := by ring
  rw [h1]
  rfl

/-- C9: for every PCM byte buffer and every requested frame duration
(values outside 10 / 20 / 30 coerced to 30 ms and hence 960 bytes), the
framer produces exactly bufferLength / frameByteLength frames, taken at
offsets 0, fbc, 2*fbc, ..., each of full length fbc (so ordered, non
overlapping and with any trailing shorter slice dropped), and each
timestamp is (byteOffset / bytesPerSample) / sampleRate. -/
theorem c9_framer (fm0 : ℤ) (audio : List ℤ) (fbcN : ℕ)
    (hfbc : fbcN = (frameByteCount (coerceFrameMs fm0)).toNat) :
    (¬(fm0 = 10 ∨ fm0 = 20 ∨ fm0 = 30) → fbcN = 960) ∧
    (framerFrames audio fm0).length = audio.length / fbcN ∧
    (framerTimestamps audio fm0).length = audio.length / fbcN ∧
    ∀ i, i < audio.length / fbcN →
      (framerFrames audio fm0).getD i [] = (audio.drop (i * fbcN)).take fbcN ∧
      ((framerFrames audio fm0).getD i []).length = fbcN ∧
      (framerTimestamps audio fm0).getD i 0 =
        (((i * fbcN : ℕ) : ℚ) / (sampleWidth : ℚ)) / (sampleRate : ℚ) := by
  subst hfbc
  have hpos := frameByteCount_pos fm0
  have hcast : ((((frameByteCount (coerceFrameMs fm0)).toNat : ℕ)) : ℤ) =
      frameByteCount (coerceFrameMs fm0) := Int.toNat_of_nonneg hpos.le
  have hnum : numFrames audio.length (frameByteCount (coerceFrameMs fm0)) =
      audio.length / (frameByteCount (coerceFrameMs fm0)).toNat :=
    numFrames_eq_div _ _ hpos
  refine ⟨?_, ?_, ?_, ?_⟩
  · intro h
    have hc : coerceFrameMs fm0 = 30 := by unfold coerceFrameMs; exact if_neg h
    rw [hc]
    with_unfolding_all exact of_decide_eq_true rfl
  · simp only [framerFrames, List.length_map, List.length_range, hcast, hnum]
  · simp only [framerTimestamps, List.length_map, List.length_range, hnum]
  · intro i hi
    have hle : (i + 1) * (frameByteCount (coerceFrameMs fm0)).toNat ≤ audio.length := by
      have h1 : i + 1 ≤ audio.length / (frameByteCount (coerceFrameMs fm0)).toNat := hi
      calc (i + 1) * (frameByteCount (coerceFrameMs fm0)).toNat
          ≤ (audio.length / (frameByteCount (coerceFrameMs fm0)).toNat) *
              (frameByteCount (coerceFrameMs fm0)).toNat :=
            Nat.mul_le_mul_right _ h1
        _ ≤ audio.length := Nat.div_mul_le_self _ _
    have hiF : i < (framerFrames audio fm0).length := by
      simpa only [framerFrames, List.length_map, List.length_range, hcast, hnum] using hi
    have hiT : i < (framerTimestamps audio fm0).length := by
      simpa only [framerTimestamps, List.length_map, List.length_range, hnum] using hi
    refine ⟨?_, ?_, ?_⟩
    · rw [List.getD_eq_getElem _ _ hiF]
      simp only [framerFrames, List.getElem_map, List.getElem_range]
    · rw [List.getD_eq_getElem _ _ hiF]
      rw [Nat.add_mul, Nat.one_mul] at hle
      simp only [framerFrames, List.getElem_map, List.getElem_range,
        List.length_take, List.length_drop]
      omega
    · rw [List.getD_eq_getElem _ _ hiT]
      simp only [framerTimestamps, List.getElem_map, List.getElem_range, timestampAt]
      have h2 : (((frameByteCount (coerceFrameMs fm0)).toNat : ℚ)) =
          ((frameByteCount (coerceFrameMs fm0) : ℤ) : ℚ) := by
        exact_mod_cast congrArg (fun z : ℤ => (z : ℚ)) hcast
      rw [Nat.cast_mul, h2]

/-- Witness for C9: a 2000 byte buffer with an out of range frame
duration request (25 ms, coerced to 30 ms and 960 bytes) yields two
frames; the conclusion is checked at frame 1. -/
theorem c9_framer_witness :
    (¬((25 : ℤ) = 10 ∨ (25 : ℤ) = 20 ∨ (25 : ℤ) = 30) → (960 : ℕ) = 960) ∧
    (framerFrames (List.replicate 2000 0) 25).length = (List.replicate 2000 (0 : ℤ)).length / 960 ∧
    (framerTimestamps (List.replicate 2000 0) 25).length = (List.replicate 2000 (0 : ℤ)).length / 960 ∧
    ∀ i, i < (List.replicate 2000 (0 : ℤ)).length / 960 →
      (framerFrames (List.replicate 2000 0) 25).getD i [] =
        ((List.replicate 2000 (0 : ℤ)).drop (i * 960)).take 960 ∧
      ((framerFrames (List.replicate 2000 0) 25).getD i []).length = 960 ∧
      (framerTimestamps (List.replicate 2000 0) 25).getD i 0 =
        (((i * 960 : ℕ) : ℚ) / (sampleWidth : ℚ)) / (sampleRate : ℚ) :=
  c9_framer 25 (List.replicate 2000 0) 960
    (by with_unfolding_all exact of_decide_eq_true rfl)

theorem findClustersGo_mem (l : List Bool) :
    ∀ (idx : ℕ) (st : Option ℕ), (∀ s0, st = some s0 → s0 < idx) →
      ∀ p ∈ findClustersGo l idx st,
        st.getD idx ≤ p.1 ∧ p.1 < p.2 ∧ p.2 ≤ idx + l.length := by
  induction l with
  | nil =>
    intro idx st hst p hp
    cases st with
    | none => simp [findClustersGo] at hp
    | some s0 =>
      simp only [findClustersGo, List.mem_singleton] at hp
      subst hp
      exact ⟨le_refl _, hst s0 rfl, by simp⟩
  | cons f rest ih =>
    intro idx st hst p hp
    cases st with
    | none =>
      cases f with
      | false =>
        have hp2 : p ∈ findClustersGo rest (idx + 1) none := by
          simpa [findClustersGo] using hp
        obtain ⟨h1, h2, h3⟩ := ih (idx + 1) none (by intro s0 h; cases h) p hp2
        simp only [Option.getD_none] at h1 ⊢
        exact ⟨by omega, h2, by simp only [List.length_cons]; omega⟩
      | true =>
        have hp2 : p ∈ findClustersGo rest (idx + 1) (some idx) := by
          simpa [findClustersGo] using hp
        obtain ⟨h1, h2, h3⟩ := ih (idx + 1) (some idx)
          (by intro s0 h; injection h with h; omega) p hp2
        simp only [Option.getD_some] at h1
        simp only [Option.getD_none]
        exact ⟨h1, h2, by simp only [List.length_cons]; omega⟩
    | some s0 =>
      cases f with
      | true =>
        have hp2 : p ∈ findClustersGo rest (idx + 1) (some s0) := by
          simpa [findClustersGo] using hp
        obtain ⟨h1, h2, h3⟩ := ih (idx + 1) (some s0)
          (by intro s1 h; injection h with h; have := hst s0 rfl; omega) p hp2
        simp only [Option.getD_some] at h1 ⊢
        exact ⟨h1, h2, by simp only [List.length_cons]; omega⟩
      | false =>
        have hp2 : p = (s0, idx) ∨ p ∈ findClustersGo rest (idx + 1) none := by
          simpa [findClustersGo] using hp
        rcases hp2 with rfl | hp3
        · exact ⟨le_refl _, hst s0 rfl, by simp only [Option.getD_some]; omega⟩
        · obtain ⟨h1, h2, h3⟩ := ih (idx + 1) none (by intro s1 h; cases h) p hp3
          simp only [Option.getD_none] at h1
          have h0 := hst s0 rfl
          simp only [Option.getD_some]
          exact ⟨by omega, h2, by simp only [List.length_cons]; omega⟩

theorem findClustersGo_pairwise (l : List Bool) :
    ∀ (idx : ℕ) (st : Option ℕ), (∀ s0, st = some s0 → s0 < idx) →
      List.Pairwise (fun a b : ℕ × ℕ => a.2 ≤ b.1) (findClustersGo l idx st) := by
  induction l with
  | nil =>
    intro idx st hst
    cases st <;> simp [findClustersGo]
  | cons f rest ih =>
    intro idx st hst
    cases st with
    | none =>
      cases f with
      | false =>
        simpa [findClustersGo] using ih (idx + 1) none (by intro s0 h; cases h)
      | true =>
        simpa [findClustersGo] using
          ih (idx + 1) (some idx) (by intro s0 h; injection h with h; omega)
    | some s0 =>
      cases f with
      | true =>
        simpa [findClustersGo] using ih (idx + 1) (some s0)
          (by intro s1 h; injection h with h; have := hst s0 rfl; omega)
      | false =>
        have hgo : findClustersGo (false :: rest) idx (some s0) =
            (s0, idx) :: findClustersGo rest (idx + 1) none := by
          simp [findClustersGo]
        rw [hgo, List.pairwise_cons]
        constructor
        · intro b hb
          have h1 := (findClustersGo_mem rest (idx + 1) none
            (by intro s1 h; cases h) b hb).1
          simp only [Option.getD_none] at h1
          omega
        · exact ih (idx + 1) none (by intro s1 h; cases h)

theorem findClusters_mem (flags : List Bool) (p : ℕ × ℕ)
    (hp : p ∈ findClusters flags) : p.1 < p.2 ∧ p.2 ≤ flags.length := by
  have := findClustersGo_mem flags 0 none (by intro s0 h; cases h) p hp
  exact ⟨this.2.1, by simpa using this.2.2⟩

theorem findClusters_pairwise (flags : List Bool) :
    List.Pairwise (fun a b : ℕ × ℕ => a.2 ≤ b.1) (findClusters flags) :=
  findClustersGo_pairwise flags 0 none (by intro s0 h; cases h)

theorem findClustersGo_close (l : List Bool) :
    ∀ (idx c : ℕ), c ≤ l.length →
      (∀ i ∈ List.range' 0 c, l.getD i false = true) →
      (c = l.length ∨ l.getD c false = false) →
      ∀ s0, (s0, idx + c) ∈ findClustersGo l idx (some s0) := by
  induction l with
  | nil =>
    intro idx c hc _ _ s0
    have hc0 : c = 0 := by simpa using hc
    subst hc0
    simp [findClustersGo]
  | cons f rest ih =>
    intro idx c hc htrue hbound s0
    rcases Nat.eq_zero_or_pos c with hc0 | hcpos
    · subst hc0
      have hf : f = false := by
        rcases hbound with h | h
        · simp at h
        · simpa using h
      subst hf
      simp [findClustersGo]
    · have hf : f = true := by
        have := htrue 0 (by rw [List.mem_range'_1]; omega)
        simpa using this
      subst hf
      have hgo : findClustersGo (true :: rest) idx (some s0) =
          findClustersGo rest (idx + 1) (some s0) := by
        simp [findClustersGo]
      rw [hgo]
      have heq : idx + c = idx + 1 + (c - 1) := by omega
      rw [heq]
      apply ih (idx + 1) (c - 1)
      · simp only [List.length_cons] at hc; omega
      · intro i hi
        rw [List.mem_range'_1] at hi
        have := htrue (i + 1) (by rw [List.mem_range'_1]; omega)
        simpa using this
      · rcases hbound with h | h
        · left; simp only [List.length_cons] at h; omega
        · right
          have hge : c = (c - 1) + 1 := by omega
          rw [hge] at h
          simpa using h

theorem findClustersGo_complete (l : List Bool) :
    ∀ (idx a b : ℕ),
      a < b → b ≤ l.length →
      (∀ i ∈ List.range' a (b - a), l.getD i false = true) →
      (a = 0 ∨ l.getD (a - 1) false = false) →
      (b = l.length ∨ l.getD b false = false) →
      ((idx + a, idx + b) ∈ findClustersGo l idx none ∧
       (1 ≤ a → ∀ s0, (idx + a, idx + b) ∈ findClustersGo l idx (some s0))) := by
  induction l with
  | nil =>
    intro idx a b hab hb _ _ _
    exact absurd hab (by simp at hb; omega)
  | cons f rest ih =>
    intro idx a b hab hb htrue hleft hright
    by_cases ha : a = 0
    · subst ha
      have hf : f = true := by
        have := htrue 0 (by rw [List.mem_range'_1]; omega)
        simpa using this
      subst hf
      constructor
      · have hgo : findClustersGo (true :: rest) idx none =
            findClustersGo rest (idx + 1) (some idx) := by
          simp [findClustersGo]
        rw [hgo]
        have heq : idx + b = idx + 1 + (b - 1) := by omega
        rw [heq]
        apply findClustersGo_close rest (idx + 1) (b - 1)
        · simp only [List.length_cons] at hb; omega
        · intro i hi
          rw [List.mem_range'_1] at hi
          have := htrue (i + 1) (by rw [List.mem_range'_1]; omega)
          simpa using this
        · rcases hright with h | h
          · left; simp only [List.length_cons] at h; omega
          · right
            have hge : b = (b - 1) + 1 := by omega
            rw [hge] at h
            simpa using h
      · intro h1a
        exact absurd h1a (by omega)
    · have ha1 : 1 ≤ a := Nat.one_le_iff_ne_zero.mpr ha
      have hfalse : List.getD (f :: rest) (a - 1) false = false :=
        hleft.resolve_left ha
      have hsub1 : a - 1 < b - 1 := by omega
      have hsub2 : b - 1 ≤ rest.length := by
        simp only [List.length_cons] at hb; omega
      have hsub3 : ∀ i ∈ List.range' (a - 1) ((b - 1) - (a - 1)),
          rest.getD i false = true := by
        intro i hi
        rw [List.mem_range'_1] at hi
        have := htrue (i + 1) (by rw [List.mem_range'_1]; omega)
        simpa using this
      have hsub4 : a - 1 = 0 ∨ rest.getD (a - 1 - 1) false = false := by
        by_cases h1 : a = 1
        · left; omega
        · right
          have hge : a - 1 = (a - 1 - 1) + 1 := by omega
          rw [hge] at hfalse
          simpa using hfalse
      have hsub5 : b - 1 = rest.length ∨ rest.getD (b - 1) false = false := by
        rcases hright with h | h
        · left; simp only [List.length_cons] at h; omega
        · right
          have hge : b = (b - 1) + 1 := by omega
          rw [hge] at h
          simpa using h
      obtain ⟨iha, ihs⟩ := ih (idx + 1) (a - 1) (b - 1) hsub1 hsub2 hsub3 hsub4 hsub5
      have heqa : idx + 1 + (a - 1) = idx + a := by omega
      have heqb : idx + 1 + (b - 1) = idx + b := by omega
      rw [heqa, heqb] at iha ihs
      constructor
      · cases f with
        | false =>
          have hgo : findClustersGo (false :: rest) idx none =
              findClustersGo rest (idx + 1) none := by
            simp [findClustersGo]
          rw [hgo]; exact iha
        | true =>
          have ha2 : 1 ≤ a - 1 := by
            rcases Nat.lt_or_ge a 2 with h2 | h2
            · exfalso
              have h1 : a = 1 := by omega
              subst h1
              simpa using hfalse
            · omega
          have hgo : findClustersGo (true :: rest) idx none =
              findClustersGo rest (idx + 1) (some idx) := by
            simp [findClustersGo]
          rw [hgo]; exact ihs ha2 idx
      · intro _ s0
        cases f with
        | false =>
          have hgo : findClustersGo (false :: rest) idx (some s0) =
              (s0, idx) :: findClustersGo rest (idx + 1) none := by
            simp [findClustersGo]
          rw [hgo]
          exact List.mem_cons_of_mem _ iha
        | true =>
          have ha2 : 1 ≤ a - 1 := by
            rcases Nat.lt_or_ge a 2 with h2 | h2
            · exfalso
              have h1 : a = 1 := by omega
              subst h1
              simpa using hfalse
            · omega
          have hgo : findClustersGo (true :: rest) idx (some s0) =
              findClustersGo rest (idx + 1) (some s0) := by
            simp [findClustersGo]
          rw [hgo]; exact ihs ha2 s0

theorem isMaximalRun_mem_findClusters (flags : List Bool) (s e : ℕ)
    (h : isMaximalRun flags s e) : (s, e) ∈ findClusters flags := by
  obtain ⟨h1, h2, h3, h4, h5⟩ := h
  have := (findClustersGo_complete flags 0 s e h1 h2 h3 h4 h5).1
  simpa using this

/-- C4: for every admissible frame duration the minimum surviving run
length equals max(2, ceil(0.12 / frameDurationSeconds)) — the truncating
int() of the source agrees with the ceiling because the quotient is exact
— and a maximal contiguous run of active frames survives as a cluster
exactly when its frame count reaches that bound; with 10 ms frames the
bound is 12 frames. -/
theorem c4_min_active_run_filter (fm : ℤ) (hfm : fm = 10 ∨ fm = 20 ∨ fm = 30) :
    minActiveFrames fm = max 2 (qCeilZ ((12 / 100 : ℚ) / frameDurationSec fm)) ∧
    minActiveFrames 10 = 12 ∧ minActiveFrames 20 = 6 ∧ minActiveFrames 30 = 4 ∧
    ∀ (energies : List ℚ) (s e : ℕ), isMaximalRun (activeFlags energies) s e →
      ((s, e) ∈ survivingClusters energies fm ↔
        minActiveFrames fm ≤ (e : ℤ) - (s : ℤ)) := by
  refine ⟨?_,
    by with_unfolding_all exact of_decide_eq_true rfl,
    by with_unfolding_all exact of_decide_eq_true rfl,
    by with_unfolding_all exact of_decide_eq_true rfl, ?_⟩
  · rcases hfm with h | h | h <;> subst h <;>
      with_unfolding_all exact of_decide_eq_true rfl
  · intro energies s e hrun
    unfold survivingClusters
    rw [List.mem_filter]
    constructor
    · rintro ⟨_, hcond⟩
      simpa using hcond
    · intro hc
      exact ⟨isMaximalRun_mem_findClusters _ _ _ hrun, by simpa using hc⟩

/-- Witness for C4 at the example energy profile: the run on frames
14..18 is maximal, and the survival equivalence is checked at 30 ms
together with the 12 frame bound at 10 ms. -/
theorem c4_min_active_run_filter_witness :
    (((14, 18) ∈ survivingClusters exEnergies 30 ↔
        minActiveFrames 30 ≤ ((18 : ℕ) : ℤ) - ((14 : ℕ) : ℤ))) ∧
    minActiveFrames 10 = 12 :=
  ⟨(c4_min_active_run_filter 30 (by right; right; rfl)).2.2.2.2 exEnergies 14 18
      (by with_unfolding_all exact of_decide_eq_true rfl),
   (c4_min_active_run_filter 30 (by right; right; rfl)).2.1⟩

/-- A segment with the spec text "Hello  THERE" starting at t = 0. -/
def exSegHelloA : RawSeg where
  start := 0
  stop := 1 / 2
  text := "Hello  THERE"
  noSpeechProb := 0
  words := [{ start := 0, stop := 1 / 2, text := "Hello" },
            { start := 1 / 4, stop := 1 / 2, text := "THERE" }]

/-- A segment with the same normalized text starting at t = 2. -/
def exSegHelloB : RawSeg where
  start := 2
  stop := 5 / 2
  text := "hello there"
  noSpeechProb := 0
  words := [{ start := 2, stop := 5 / 2, text := "hello" },
            { start := 9 / 4, stop := 5 / 2, text := "there" }]

theorem restartStep_fresh (st : List (String × ℚ) × ℚ) (t : ℚ) (s : String)
    (h : seenLookup st.1 s = none) :
    restartStep st (t, s) = ((s, t) :: st.1, st.2) := by
  simp [restartStep, h]

theorem seenLookup_head (s : String) (prev : ℚ) (tail : List (String × ℚ)) :
    seenLookup ((s, prev) :: tail) s = some prev := by
  simp [seenLookup, List.find?]

theorem restart_chain_aux (s : String) :
    ∀ (ts : List ℚ) (prev : ℚ) (tail : List (String × ℚ)) (c : ℚ),
      List.Chain (fun a b : ℚ => b - a ≤ 2 / 5) prev ts →
      ((ts.map (fun t => (t, s))).foldl restartStep ((s, prev) :: tail, c)).2 = c := by
  intro ts
  induction ts with
  | nil => intro prev tail c _; rfl
  | cons t rest ih =>
    intro prev tail c hch
    cases hch with
    | cons hle hch2 =>
      simp only [List.map_cons, List.foldl_cons]
      have hstep : restartStep ((s, prev) :: tail, c) (t, s) =
          ((s, t) :: (s, prev) :: tail, c) := by
        simp only [restartStep, seenLookup_head]
        rw [if_neg (not_lt.mpr hle)]
      rw [hstep]
      exact ih t ((s, prev) :: tail) c hch2

/-- Counterexample to C5 as stated: three occurrences of one text at
t = 0, 0.3 and 0.6.  The third occurrence starts more than 0.4 s after
the first occurrence of that text, so the claim demands a restart cutoff
of at least 0.6, but the source compares against the remembered
occurrence (updated to 0.3 by the second, non triggering repeat) and
raises no cutoff at all. -/
theorem c5_counterexample_sliding_reference :
    restartCutoffOf [(0, "a"), (3 / 10, "a"), (3 / 5, "a")] = 0 ∧
    ((2 : ℚ) / 5 < 3 / 5 - 0) := by
  with_unfolding_all exact of_decide_eq_true rfl

/-- C5 amended: the restart scan compares each occurrence against the
remembered occurrence of its normalized text, where the remembered start
is updated to every occurrence that does not trigger a cutoff (so
repeats within 0.4 s slide the reference forward and a chain of small
gaps never triggers).  Two occurrences of one text trigger exactly when
their gap exceeds 0.4 s, raising the cutoff to the later start; a
positive cutoff drops every usable segment with firstWordStart below it
and raises the effective silence end to at least the cutoff; the spec
example (same normalized text at t = 0 and t = 2) raises the cutoff to 2
and drops the first occurrence. -/
theorem c5_amended_restart_detection :
    (∀ (t1 t2 : ℚ) (s : String),
      restartCutoffOf [(t1, s), (t2, s)] =
        if 2 / 5 < t2 - t1 then max 0 t2 else 0) ∧
    (∀ (s : String) (ts : List ℚ),
      List.Chain' (fun a b : ℚ => b - a ≤ 2 / 5) ts →
      restartCutoffOf (ts.map (fun t => (t, s))) = 0) ∧
    (∀ (usable : List FSeg) (cutoff s0 : ℚ), 0 < cutoff →
      usable2Of usable cutoff =
        usable.filter (fun s => decide (cutoff ≤ s.firstWordStart)) ∧
      silenceEnd1Of s0 cutoff = max s0 cutoff ∧
      cutoff ≤ silenceEnd1Of s0 cutoff) ∧
    (restartCutoffOf (normalizedSegsOf (filterSegments [exSegHelloA, exSegHelloB])) = 2 ∧
     (usable2Of (filterSegments [exSegHelloA, exSegHelloB]) 2).map
        (fun s => s.firstWordStart) = [2]) := by
  refine ⟨?_, ?_, ?_, ?_⟩
  · intro t1 t2 s
    have h1 : restartStep ([], 0) (t1, s) = ([(s, t1)], 0) :=
      restartStep_fresh _ _ _ (by simp [seenLookup])
    by_cases h : (2 : ℚ) / 5 < t2 - t1
    · rw [if_pos h]
      simp only [restartCutoffOf, List.foldl_cons, List.foldl_nil, h1]
      simp only [restartStep, seenLookup_head]
      rw [if_pos h]
    · rw [if_neg h]
      simp only [restartCutoffOf, List.foldl_cons, List.foldl_nil, h1]
      simp only [restartStep, seenLookup_head]
      rw [if_neg h]
  · intro s ts hch
    cases ts with
    | nil => rfl
    | cons t rest =>
      have hch2 : List.Chain (fun a b : ℚ => b - a ≤ 2 / 5) t rest := hch
      simp only [restartCutoffOf, List.map_cons, List.foldl_cons]
      have h1 : restartStep ([], 0) (t, s) = ([(s, t)], 0) :=
        restartStep_fresh _ _ _ (by simp [seenLookup])
      rw [h1]
      exact restart_chain_aux s rest t [] 0 hch2
  · intro usable cutoff s0 h
    exact ⟨by simp [usable2Of, h], by simp [silenceEnd1Of, h],
      by simp [silenceEnd1Of, h]⟩
  · constructor
    · with_unfolding_all exact of_decide_eq_true rfl
    · with_unfolding_all exact of_decide_eq_true rfl

/-- Witness for C5 amended: the two occurrence rule at (0, 2), a chain
of small gaps at (0, 0.3, 0.6), and the drop rule at cutoff 2. -/
theorem c5_amended_restart_detection_witness :
    restartCutoffOf [((0 : ℚ), "hello there"), (2, "hello there")] =
      (if (2 : ℚ) / 5 < 2 - 0 then max 0 2 else 0) ∧
    restartCutoffOf ([(0 : ℚ), 3 / 10, 3 / 5].map (fun t => (t, "a"))) = 0 ∧
    silenceEnd1Of (3 / 25 : ℚ) 2 = max (3 / 25) 2 :=
  ⟨c5_amended_restart_detection.1 0 2 "hello there",
   c5_amended_restart_detection.2.1 "a" [0, 3 / 10, 3 / 5]
     (by
       show List.Chain (fun a b : ℚ => b - a ≤ 2 / 5) 0 [3 / 10, 3 / 5]
       exact List.Chain.cons
         (by with_unfolding_all exact of_decide_eq_true rfl)
         (List.Chain.cons
           (by with_unfolding_all exact of_decide_eq_true rfl) List.Chain.nil)),
   (c5_amended_restart_detection.2.2.1 [] 2 (3 / 25)
     (by with_unfolding_all exact of_decide_eq_true rfl)).2.1⟩

/-- A segment ending at t = 10 (tail clustering example). -/
def exSegTail1 : FSeg where
  start := 8
  stop := 10
  text := "p"
  noSpeechProb := 0
  words := []
  firstWordStart := 8
  lastWordEnd := 10

/-- A segment starting at t = 11.2, gap 1.2 to the previous end. -/
def exSegTail2 : FSeg where
  start := 56 / 5
  stop := 12
  text := "q"
  noSpeechProb := 0
  words := []
  firstWordStart := 56 / 5
  lastWordEnd := 12

/-- A segment starting at t = 11.6, gap 1.6 to the previous end. -/
def exSegTail3 : FSeg where
  start := 58 / 5
  stop := 12
  text := "q"
  noSpeechProb := 0
  words := []
  firstWordStart := 58 / 5
  lastWordEnd := 12

/-- The segment the backward walk compares against at step i: the head
of the cluster at that moment. -/
def tailChainHead (rev : List FSeg) (h : FSeg) (i : ℕ) : FSeg :=
  if i = 0 then h else rev.getD (i - 1) fsegDefault

theorem tailClusterGo_spec :
    ∀ (rev : List FSeg) (h : FSeg) (acc : List FSeg),
      ∃ j, j ≤ rev.length ∧
        tailClusterGo rev h acc = (rev.take j).reverse ++ h :: acc ∧
        (∀ i, i < j →
          (tailChainHead rev h i).start - (rev.getD i fsegDefault).stop ≤ 3 / 2) ∧
        (j < rev.length →
          3 / 2 < (tailChainHead rev h j).start - (rev.getD j fsegDefault).stop) := by
  intro rev
  induction rev with
  | nil =>
    intro h acc
    exact ⟨0, le_refl _, rfl, by omega, by simp⟩
  | cons s rest ih =>
    intro h acc
    by_cases hc : h.start - s.stop ≤ 3 / 2
    · obtain ⟨j, hjle, heq, hcond, hstop⟩ := ih s (h :: acc)
      refine ⟨j + 1, by simp only [List.length_cons]; omega, ?_, ?_, ?_⟩
      · have hgo : tailClusterGo (s :: rest) h acc = tailClusterGo rest s (h :: acc) := by
          simp [tailClusterGo, hc]
        rw [hgo, heq]
        simp [List.append_assoc]
      · intro i hi
        cases i with
        | zero =>
          simpa [tailChainHead] using hc
        | succ i2 =>
          have ht : tailChainHead (s :: rest) h (i2 + 1) = tailChainHead rest s i2 := by
            unfold tailChainHead
            cases i2 with
            | zero => simp
            | succ i3 => simp
          have hg : (s :: rest).getD (i2 + 1) fsegDefault = rest.getD i2 fsegDefault := by
            simp
          rw [ht, hg]
          exact hcond i2 (by omega)
      · intro hjlt
        have hjlt2 : j < rest.length := by simp only [List.length_cons] at hjlt; omega
        have ht : tailChainHead (s :: rest) h (j + 1) = tailChainHead rest s j := by
          unfold tailChainHead
          cases j with
          | zero => simp
          | succ j2 => simp
        have hg : (s :: rest).getD (j + 1) fsegDefault = rest.getD j fsegDefault := by
          simp
        rw [ht, hg]
        exact hstop hjlt2
    · refine ⟨0, by simp, ?_, by omega, ?_⟩
      · simp [tailClusterGo, hc]
      · intro _
        simpa [tailChainHead] using not_le.mp hc

theorem getD_reverse_fseg (l : List FSeg) (i : ℕ) (h : i < l.length) :
    l.reverse.getD i fsegDefault = l.getD (l.length - 1 - i) fsegDefault := by
  have h1 : i < l.reverse.length := by simpa using h
  have h2 : l.length - 1 - i < l.length := by omega
  rw [List.getD_eq_getElem _ _ h1, List.getD_eq_getElem _ _ h2]
  exact List.getElem_reverse ..

theorem getD_dropLast_fseg (l : List FSeg) (i : ℕ) (h : i < l.length - 1) :
    l.dropLast.getD i fsegDefault = l.getD i fsegDefault := by
  have h1 : i < l.dropLast.length := by rw [List.length_dropLast]; omega
  have h2 : i < l.length := by omega
  rw [List.getD_eq_getElem _ _ h1, List.getD_eq_getElem _ _ h2]
  exact List.getElem_dropLast ..

theorem getLast_eq_getD (l : List FSeg) (h : l ≠ []) :
    l.getLast h = l.getD (l.length - 1) fsegDefault := by
  have h1 : l.length - 1 < l.length := by
    cases l with
    | nil => exact absurd rfl h
    | cons a t => simp
  rw [List.getD_eq_getElem _ _ h1]
  exact List.getLast_eq_getElem ..

theorem reverse_take_reverse_fseg (l : List FSeg) (n : ℕ) :
    (l.reverse.take n).reverse = l.drop (l.length - n) := by
  rw [List.reverse_take]
  simp

/-- C6: the tail cluster is a contiguous suffix of the usable segments,
grown backward exactly while the gap between the start of the cluster
head at that moment and the preceding segment's end stays within 1.5 s,
stopping permanently at the first larger gap; for segments ordered by
start the cluster head carries the earliest start of the cluster; a gap
of 1.2 s merges and a gap of 1.6 s does not. -/
theorem c6_tail_clustering :
    (∀ (l : List FSeg), l ≠ [] →
      ∃ k, k < l.length ∧ tailClusterOf l = l.drop k ∧
        (∀ m, k ≤ m → m + 1 < l.length →
          (l.getD (m + 1) fsegDefault).start - (l.getD m fsegDefault).stop ≤ 3 / 2) ∧
        (0 < k →
          3 / 2 < (l.getD k fsegDefault).start - (l.getD (k - 1) fsegDefault).stop) ∧
        (List.Pairwise (fun a b : FSeg => a.start ≤ b.start) l →
          ∀ x ∈ tailClusterOf l,
            ((tailClusterOf l).headD fsegDefault).start ≤ x.start)) ∧
    tailClusterOf [exSegTail1, exSegTail2] = [exSegTail1, exSegTail2] ∧
    tailClusterOf [exSegTail1, exSegTail3] = [exSegTail3] := by
  refine ⟨?_, by with_unfolding_all exact of_decide_eq_true rfl,
    by with_unfolding_all exact of_decide_eq_true rfl⟩
  intro l hne
  have htc : tailClusterOf l = tailClusterGo l.dropLast.reverse (l.getLast hne) [] := by
    unfold tailClusterOf
    rw [List.getLast?_eq_getLast_of_ne_nil hne]
  obtain ⟨j, hjle, heq, hcond, hstop⟩ :=
    tailClusterGo_spec l.dropLast.reverse (l.getLast hne) []
  have hrevlen : l.dropLast.reverse.length = l.length - 1 := by
    rw [List.length_reverse, List.length_dropLast]
  have hlpos : 1 ≤ l.length := by
    cases l with
    | nil => exact absurd rfl hne
    | cons a t => simp
  rw [hrevlen] at hjle hstop
  have hdrop : tailClusterOf l = l.drop (l.length - 1 - j) := by
    rw [htc, heq]
    have hA : (l.dropLast.reverse.take j).reverse =
        l.dropLast.drop (l.dropLast.length - j) :=
      reverse_take_reverse_fseg l.dropLast j
    rw [hA]
    have hB : l.dropLast.drop (l.dropLast.length - j) ++ [l.getLast hne] =
        (l.dropLast ++ [l.getLast hne]).drop (l.dropLast.length - j) := by
      rw [List.drop_append_eq_append_drop]
      have hz : l.dropLast.length - j - l.dropLast.length = 0 := by omega
      rw [hz, List.drop_zero]
    rw [hB, List.dropLast_append_getLast hne, List.length_dropLast]
  -- translation of the walk indices to list indices
  have hrevD : ∀ i, i < l.length - 1 →
      l.dropLast.reverse.getD i fsegDefault = l.getD (l.length - 2 - i) fsegDefault := by
    intro i hi
    have h1 : i < l.dropLast.length := by rw [List.length_dropLast]; omega
    rw [getD_reverse_fseg l.dropLast i h1, List.length_dropLast]
    have h2 : l.length - 1 - 1 - i < l.length - 1 := by omega
    rw [getD_dropLast_fseg l (l.length - 1 - 1 - i) h2]
    have h3 : l.length - 1 - 1 - i = l.length - 2 - i := by omega
    rw [h3]
  have hheadD : ∀ i, i < l.length - 1 →
      tailChainHead l.dropLast.reverse (l.getLast hne) i =
        l.getD (l.length - 1 - i) fsegDefault := by
    intro i hi
    unfold tailChainHead
    cases i with
    | zero =>
      rw [getLast_eq_getD l hne]
      simp
    | succ i2 =>
      rw [if_neg (Nat.succ_ne_zero i2), Nat.add_sub_cancel,
        hrevD i2 (by omega)]
      have h3 : l.length - 2 - i2 = l.length - 1 - (i2 + 1) := by omega
      rw [h3]
  refine ⟨l.length - 1 - j, by omega, hdrop, ?_, ?_, ?_⟩
  · intro m hm hm1
    have hi : l.length - 2 - m < j := by omega
    have hi2 : l.length - 2 - m < l.length - 1 := by omega
    have hc := hcond (l.length - 2 - m) hi
    rw [hrevD _ hi2] at hc
    rw [hheadD _ hi2] at hc
    have e1 : l.length - 2 - (l.length - 2 - m) = m := by omega
    have e2 : l.length - 1 - (l.length - 2 - m) = m + 1 := by omega
    rw [e1, e2] at hc
    exact hc
  · intro hk
    have hjlt : j < l.length - 1 := by omega
    have hc := hstop hjlt
    rw [hrevD _ hjlt, hheadD _ hjlt] at hc
    have e1 : l.length - 2 - j = l.length - 1 - j - 1 := by omega
    have e2 : l.length - 1 - j = l.length - 1 - j := rfl
    rw [e1] at hc
    exact hc
  · intro hsort x hx
    rw [hdrop] at hx ⊢
    have hps : (l.drop (l.length - 1 - j)).Pairwise
        (fun a b : FSeg => a.start ≤ b.start) := hsort.drop
    cases hd : l.drop (l.length - 1 - j) with
    | nil =>
      rw [hd] at hx
      cases hx
    | cons c t =>
      rw [hd] at hx hps
      simp only [List.headD_cons]
      rcases List.mem_cons.mp hx with rfl | hxt
      · exact le_refl _
      · exact (List.pairwise_cons.mp hps).1 x hxt

/-- Witness for C6: the characterization applied to the two segment
merge example. -/
theorem c6_tail_clustering_witness :
    ∃ k, k < ([exSegTail1, exSegTail2] : List FSeg).length ∧
      tailClusterOf [exSegTail1, exSegTail2] = ([exSegTail1, exSegTail2] : List FSeg).drop k ∧
      (∀ m, k ≤ m → m + 1 < ([exSegTail1, exSegTail2] : List FSeg).length →
        (([exSegTail1, exSegTail2] : List FSeg).getD (m + 1) fsegDefault).start -
          (([exSegTail1, exSegTail2] : List FSeg).getD m fsegDefault).stop ≤ 3 / 2) ∧
      (0 < k →
        3 / 2 < (([exSegTail1, exSegTail2] : List FSeg).getD k fsegDefault).start -
          (([exSegTail1, exSegTail2] : List FSeg).getD (k - 1) fsegDefault).stop) ∧
      (List.Pairwise (fun a b : FSeg => a.start ≤ b.start) [exSegTail1, exSegTail2] →
        ∀ x ∈ tailClusterOf [exSegTail1, exSegTail2],
          ((tailClusterOf [exSegTail1, exSegTail2]).headD fsegDefault).start ≤ x.start) :=
  c6_tail_clustering.1 [exSegTail1, exSegTail2]
    (by with_unfolding_all exact of_decide_eq_true rfl)

/-- C8: any failure inside the refinement body — the external
transcription call failing, or the internal empty-sequence min() raised
when the restart cutoff filters every usable segment away — is caught by
the refiner stage: the returned result keeps every energy derived field
unchanged, carries the diagnostic string on the transcript field, and the
stage never aborts or replaces the overall result. -/
theorem c8_refine_failure_contained (tr : Except String (List RawSeg))
    (respE : Response) (s0 : ℚ) (msg : String)
    (h : refineBody tr respE s0 = .error msg) :
    refineAndFinish tr respE s0 =
      { respE with transcript := some (errorEcho msg) } ∧
    (refineAndFinish tr respE s0).speechStart = respE.speechStart ∧
    (refineAndFinish tr respE s0).speechEnd = respE.speechEnd ∧
    (refineAndFinish tr respE s0).trimStart = respE.trimStart ∧
    (refineAndFinish tr respE s0).trimEnd = respE.trimEnd ∧
    (refineAndFinish tr respE s0).confidence = respE.confidence ∧
    (refineAndFinish tr respE s0).speechDuration = respE.speechDuration ∧
    (refineAndFinish tr respE s0).speechDetected = respE.speechDetected ∧
    (refineAndFinish tr respE s0).transcript = some (errorEcho msg) := by
  have hr : refineAndFinish tr respE s0 =
      { respE with transcript := some (errorEcho msg) } := by
    unfold refineAndFinish
    rw [h]
  rw [hr]
  exact ⟨rfl, rfl, rfl, rfl, rfl, rfl, rfl, rfl, rfl⟩

/-- Witness for C8: the two repeats of one text 3 s apart set the restart
cutoff beyond every usable segment, so the refinement body raises; the
energy response for the example profile comes back unchanged except for
the error echo. -/
theorem c8_refine_failure_contained_witness :
    refineAndFinish (.ok [exSegRepeatA, exSegRepeatB]) exRespE (21 / 50) =
      { exRespE with transcript := some (errorEcho "min() arg is an empty sequence") } :=
  (c8_refine_failure_contained (.ok [exSegRepeatA, exSegRepeatB]) exRespE (21 / 50)
    "min() arg is an empty sequence"
    (by with_unfolding_all exact of_decide_eq_true rfl)).1

theorem finalGuard_of_le (x : Response) (echo : Option Echo)
    (h : x.speechEnd ≤ x.speechStart) :
    finalGuard (x, echo) =
      { x with speechDetected := false
               error := some "Unable to identify speech boundaries from transcript." } := by
  simp [finalGuard, h]

theorem finalGuard_of_lt (x : Response) (echo : Option Echo)
    (h : x.speechStart < x.speechEnd) :
    finalGuard (x, echo) =
      { x with speechDetected := true
               transcript := some (echo.getD emptyEcho) } := by
  simp [finalGuard, not_le.mpr h]

theorem applyAcceptGuard_accept (respE : Response) (se1 : ℚ) (usable2 : List FSeg)
    (h : overallHeadTrimOf (overallFirstWordOf se1 usable2) respE.padding.pre <
      transcriptTrimEndOf respE.duration (clusterEndOf (tailClusterOf usable2))
        respE.padding.post) :
    applyAcceptGuard respE se1 usable2 =
      finalGuard
        (acceptUpdate respE (overallFirstWordOf se1 usable2) se1
          (clusterEndOf (tailClusterOf usable2))
          (overallHeadTrimOf (overallFirstWordOf se1 usable2) respE.padding.pre)
          (transcriptTrimEndOf respE.duration (clusterEndOf (tailClusterOf usable2))
            respE.padding.post)
          (tailClusterOf usable2),
         some (echoOfCluster (overallFirstWordOf se1 usable2)
           (clusterEndOf (tailClusterOf usable2)) (tailClusterOf usable2))) := by
  simp only [applyAcceptGuard]
  rw [if_pos h]

theorem applyAcceptGuard_reject (respE : Response) (se1 : ℚ) (usable2 : List FSeg)
    (h : transcriptTrimEndOf respE.duration (clusterEndOf (tailClusterOf usable2))
        respE.padding.post ≤
      overallHeadTrimOf (overallFirstWordOf se1 usable2) respE.padding.pre) :
    applyAcceptGuard respE se1 usable2 =
      finalGuard (respE, (none : Option Echo)) := by
  simp only [applyAcceptGuard]
  rw [if_neg (not_lt.mpr h)]

theorem refineBody_ok_unfold (segs : List RawSeg) (respE : Response) (s0 : ℚ) :
    refineBody (.ok segs) respE s0 =
      if filterSegments segs = [] then
        .ok { respE with error := some "Transcript contained no spoken words." }
      else if usable2Of (usableOf respE.speechStart respE.speechEnd (filterSegments segs))
          (restartCutoffOf (normalizedSegsOf (filterSegments segs))) = [] then
        .error "min() arg is an empty sequence"
      else
        .ok (applyAcceptGuard respE
          (silenceEnd1Of s0 (restartCutoffOf (normalizedSegsOf (filterSegments segs))))
          (usable2Of (usableOf respE.speechStart respE.speechEnd (filterSegments segs))
            (restartCutoffOf (normalizedSegsOf (filterSegments segs))))) := rfl

/-- Counterexample to C2 as stated: a transcript segment ending well
before the energy window.  The acceptance inequality
transcriptTrimEnd > overallHeadTrim holds (0.07 > 0.02), the window is
replaced (trimEnd becomes 0.07 where the energy stage had 0.55), yet the
final guard then fails on the degenerate accepted window, so the
returned result has speechDetected false and NO transcript echo,
contrary to the claim that acceptance populates transcriptEcho. -/
theorem c2_counterexample_accept_without_echo :
    let r := trimDeadspace 30 (2 / 5) (1 / 100) 9600 exEnergies (.ok [exSegShort])
    overallHeadTrimOf
        (overallFirstWordOf
          (silenceEnd1Of (21 / 50)
            (restartCutoffOf (normalizedSegsOf (filterSegments [exSegShort]))))
          (usable2Of (usableOf (21 / 50) (27 / 50) (filterSegments [exSegShort]))
            (restartCutoffOf (normalizedSegsOf (filterSegments [exSegShort])))))
        (2 / 5) = 1 / 50 ∧
    transcriptTrimEndOf (3 / 5)
        (clusterEndOf (tailClusterOf
          (usable2Of (usableOf (21 / 50) (27 / 50) (filterSegments [exSegShort]))
            (restartCutoffOf (normalizedSegsOf (filterSegments [exSegShort]))))))
        (1 / 100) = 7 / 100 ∧
    ((1 : ℚ) / 50 < 7 / 100) ∧
    r.trimStart = 1 / 50 ∧ r.trimEnd = 7 / 100 ∧
    r.speechStart = 21 / 50 ∧ r.speechEnd = 3 / 50 ∧
    r.transcript = none ∧ r.speechDetected = false := by
  with_unfolding_all exact of_decide_eq_true rfl

/-- C2 amended: the transcript derived window replaces the energy derived
one exactly when transcriptTrimEnd > overallHeadTrim, with the field
values the claim lists, and the transcript echo is populated from the
accepted cluster provided the final guard passes (speechStart < clusterEnd
on the accepted window); when the guard fails after acceptance the
numeric window is still the transcript one but speechDetected is false
and the echo stays absent; when the acceptance inequality fails every
energy derived field is left unchanged.  The final conjunct ties the
refinement body to this stage on every non failing run. -/
theorem c2_amended_acceptance_rule (respE : Response) (se1 : ℚ)
    (usable2 : List FSeg) :
    let ofw := overallFirstWordOf se1 usable2
    let headTrim := overallHeadTrimOf ofw respE.padding.pre
    let cl := tailClusterOf usable2
    let ce := clusterEndOf cl
    let ttEnd := transcriptTrimEndOf respE.duration ce respE.padding.post
    let r := applyAcceptGuard respE se1 usable2
    (headTrim < ttEnd →
      r.speechStart = max ofw se1 ∧ r.speechEnd = ce ∧
      r.trimStart = headTrim ∧ r.trimEnd = ttEnd ∧
      r.confidence = max respE.confidence
        ((cl.map (fun s => 1 - s.noSpeechProb)).sum / (cl.length : ℚ)) ∧
      r.analysisSource = "transcript" ∧
      (max ofw se1 < ce →
        r.transcript = some (echoOfCluster ofw ce cl) ∧ r.speechDetected = true) ∧
      (ce ≤ max ofw se1 →
        r.speechDetected = false ∧ r.transcript = respE.transcript)) ∧
    (ttEnd ≤ headTrim →
      r.speechStart = respE.speechStart ∧ r.speechEnd = respE.speechEnd ∧
      r.speechDuration = respE.speechDuration ∧ r.trimStart = respE.trimStart ∧
      r.trimEnd = respE.trimEnd ∧ r.confidence = respE.confidence ∧
      r.analysisSource = respE.analysisSource ∧ r.duration = respE.duration) ∧
    (∀ (segs : List RawSeg) (s0 : ℚ),
      filterSegments segs ≠ [] →
      usable2 = usable2Of
        (usableOf respE.speechStart respE.speechEnd (filterSegments segs))
        (restartCutoffOf (normalizedSegsOf (filterSegments segs))) →
      usable2 ≠ [] →
      se1 = silenceEnd1Of s0
        (restartCutoffOf (normalizedSegsOf (filterSegments segs))) →
      refineBody (.ok segs) respE s0 = .ok r) := by
  intro ofw headTrim cl ce ttEnd r
  refine ⟨?_, ?_, ?_⟩
  · intro hacc
    have hr0 : r = finalGuard
        (acceptUpdate respE ofw se1 ce headTrim ttEnd cl,
         some (echoOfCluster ofw ce cl)) :=
      applyAcceptGuard_accept respE se1 usable2 hacc
    rcases le_or_lt ce (max ofw se1) with hg | hg
    · have hle : (acceptUpdate respE ofw se1 ce headTrim ttEnd cl).speechEnd ≤
          (acceptUpdate respE ofw se1 ce headTrim ttEnd cl).speechStart := by
        simpa [acceptUpdate] using hg
      have hr : r = { acceptUpdate respE ofw se1 ce headTrim ttEnd cl with
          speechDetected := false
          error := some "Unable to identify speech boundaries from transcript." } := by
        rw [hr0, finalGuard_of_le _ _ hle]
      rw [hr]
      refine ⟨rfl, rfl, rfl, rfl, rfl, rfl, ?_, ?_⟩
      · intro hg2; exact absurd hg2 (not_lt.mpr hg)
      · intro _; exact ⟨rfl, rfl⟩
    · have hlt : (acceptUpdate respE ofw se1 ce headTrim ttEnd cl).speechStart <
          (acceptUpdate respE ofw se1 ce headTrim ttEnd cl).speechEnd := by
        simpa [acceptUpdate] using hg
      have hr : r = { acceptUpdate respE ofw se1 ce headTrim ttEnd cl with
          speechDetected := true
          transcript := some ((some (echoOfCluster ofw ce cl)).getD emptyEcho) } := by
        rw [hr0, finalGuard_of_lt _ _ hlt]
      rw [hr]
      refine ⟨rfl, rfl, rfl, rfl, rfl, rfl, ?_, ?_⟩
      · intro _; exact ⟨rfl, rfl⟩
      · intro hg2; exact absurd hg (not_lt.mpr hg2)
  · intro hrej
    have hr0 : r = finalGuard (respE, (none : Option Echo)) :=
      applyAcceptGuard_reject respE se1 usable2 hrej
    rcases le_or_lt respE.speechEnd respE.speechStart with hg | hg
    · have hr : r = { respE with
          speechDetected := false
          error := some "Unable to identify speech boundaries from transcript." } := by
        rw [hr0, finalGuard_of_le _ _ hg]
      rw [hr]
      exact ⟨rfl, rfl, rfl, rfl, rfl, rfl, rfl, rfl⟩
    · have hr : r = { respE with
          speechDetected := true
          transcript := some ((none : Option Echo).getD emptyEcho) } := by
        rw [hr0, finalGuard_of_lt _ _ hg]
      rw [hr]
      exact ⟨rfl, rfl, rfl, rfl, rfl, rfl, rfl, rfl⟩
  · intro segs s0 hfil hu2eq hu2ne hse1
    show refineBody (.ok segs) respE s0 = .ok (applyAcceptGuard respE se1 usable2)
    rw [hu2eq] at hu2ne
    rw [hu2eq, hse1, refineBody_ok_unfold, if_neg hfil, if_neg hu2ne]

/-- Witness for C2 amended: the overrunning segment is accepted, the
window fields take the transcript values, the echo is populated, and the
refinement body returns exactly this response. -/
theorem c2_amended_acceptance_rule_witness :
    (applyAcceptGuard exRespE (21 / 50) (filterSegments [exSegLong])).trimEnd =
      transcriptTrimEndOf exRespE.duration
        (clusterEndOf (tailClusterOf (filterSegments [exSegLong]))) exRespE.padding.post ∧
    (applyAcceptGuard exRespE (21 / 50) (filterSegments [exSegLong])).transcript =
      some (echoOfCluster (overallFirstWordOf (21 / 50) (filterSegments [exSegLong]))
        (clusterEndOf (tailClusterOf (filterSegments [exSegLong])))
        (tailClusterOf (filterSegments [exSegLong]))) ∧
    (applyAcceptGuard exRespE (21 / 50) (filterSegments [exSegLong])).speechDetected = true ∧
    refineBody (.ok [exSegLong]) exRespE (21 / 50) =
      .ok (applyAcceptGuard exRespE (21 / 50) (filterSegments [exSegLong])) := by
  have h := c2_amended_acceptance_rule exRespE (21 / 50) (filterSegments [exSegLong])
  have hacc : overallHeadTrimOf
      (overallFirstWordOf (21 / 50) (filterSegments [exSegLong])) exRespE.padding.pre <
      transcriptTrimEndOf exRespE.duration
        (clusterEndOf (tailClusterOf (filterSegments [exSegLong]))) exRespE.padding.post := by
    with_unfolding_all exact of_decide_eq_true rfl
  have hg : max (overallFirstWordOf (21 / 50) (filterSegments [exSegLong])) (21 / 50) <
      clusterEndOf (tailClusterOf (filterSegments [exSegLong])) := by
    with_unfolding_all exact of_decide_eq_true rfl
  have ha := h.1 hacc
  refine ⟨ha.2.2.2.1, (ha.2.2.2.2.2.2.1 hg).1, (ha.2.2.2.2.2.2.1 hg).2, ?_⟩
  exact h.2.2 [exSegLong] (21 / 50)
    (by with_unfolding_all exact of_decide_eq_true rfl)
    (by with_unfolding_all exact of_decide_eq_true rfl)
    (by with_unfolding_all exact of_decide_eq_true rfl)
    (by with_unfolding_all exact of_decide_eq_true rfl)

theorem headD_mem {α : Type} (l : List α) (d : α) (h : l ≠ []) : l.headD d ∈ l := by
  cases l with
  | nil => exact absurd rfl h
  | cons a t => simp

theorem getLastD_mem {α : Type} : ∀ (l : List α) (d : α), l ≠ [] → l.getLastD d ∈ l := by
  intro l
  induction l with
  | nil => intro d h; exact absurd rfl h
  | cons a t ih =>
    intro d _
    cases ht : t with
    | nil => simp [List.getLastD]
    | cons b t2 =>
      rw [List.getLastD_cons]
      right
      rw [← ht]
      exact ih a (by rw [ht]; simp)

theorem le_foldl_max (l : List ℚ) : ∀ (a : ℚ), a ≤ l.foldl max a := by
  induction l with
  | nil => intro a; exact le_refl a
  | cons x t ih =>
    intro a
    calc a ≤ max a x := le_max_left a x
      _ ≤ t.foldl max (max a x) := ih (max a x)

theorem qListMax_nonneg (l : List ℚ) (h : ∀ x ∈ l, 0 ≤ x) : 0 ≤ qListMax l := by
  cases l with
  | nil => exact le_refl 0
  | cons a t =>
    have ha : 0 ≤ a := h a (by simp)
    calc (0 : ℚ) ≤ a := ha
      _ = (a :: t).headD 0 := by simp
      _ ≤ (a :: t).foldl max ((a :: t).headD 0) := le_foldl_max _ _

theorem processWords_stop_nonneg (ws : List Word) (w : Word)
    (h : w ∈ processWords ws) : 0 ≤ w.stop := by
  unfold processWords at h
  obtain ⟨w0, _, hf⟩ := List.mem_filterMap.mp h
  by_cases ht : w0.text.trim = ""
  · rw [if_pos ht] at hf; cases hf
  · rw [if_neg ht] at hf
    injection hf with hf
    have h0 : (0 : ℚ) ≤ max (max 0 w0.start) w0.stop :=
      le_trans (le_max_left 0 w0.start) (le_max_left _ _)
    rw [← hf]
    exact h0

theorem processSeg_lastWordEnd_nonneg (seg : RawSeg) (fs : FSeg)
    (h : processSeg seg = some fs) : 0 ≤ fs.lastWordEnd := by
  simp only [processSeg] at h
  split at h
  · cases h
  · split at h
    · cases h
    · split at h
      · cases h
      · injection h with h
        rw [← h]
        apply qListMax_nonneg
        intro x hx
        obtain ⟨w, hw, hws⟩ := List.mem_map.mp hx
        rw [← hws]
        by_cases hw0 : processWords seg.words = []
        · rw [if_pos hw0] at hw
          have hw1 : w = (⟨max 0 seg.start, max (max 0 seg.start) seg.stop,
              seg.text.trim⟩ : Word) := by
            simpa using hw
          rw [hw1]
          exact le_trans (le_max_left 0 seg.start) (le_max_left _ _)
        · rw [if_neg hw0] at hw
          exact processWords_stop_nonneg seg.words w hw

theorem filterSegments_lastWordEnd_nonneg (segs : List RawSeg) (fs : FSeg)
    (h : fs ∈ filterSegments segs) : 0 ≤ fs.lastWordEnd := by
  obtain ⟨seg, _, hp⟩ := List.mem_filterMap.mp h
  exact processSeg_lastWordEnd_nonneg seg fs hp

theorem usableOf_subset (ws we : ℚ) (filtered : List FSeg) (x : FSeg)
    (hx : x ∈ usableOf ws we filtered) : x ∈ filtered := by
  simp only [usableOf] at hx
  split at hx
  · exact hx
  · exact List.mem_filter.mp hx |>.1

theorem usable2Of_subset (u : List FSeg) (c : ℚ) (x : FSeg)
    (hx : x ∈ usable2Of u c) : x ∈ u := by
  unfold usable2Of at hx
  split at hx
  · exact List.mem_filter.mp hx |>.1
  · exact hx

theorem tailClusterGo_subset :
    ∀ (rev : List FSeg) (h : FSeg) (acc : List FSeg) (x : FSeg),
      x ∈ tailClusterGo rev h acc → x ∈ rev ∨ x = h ∨ x ∈ acc := by
  intro rev
  induction rev with
  | nil =>
    intro h acc x hx
    rcases List.mem_cons.mp hx with rfl | hx2
    · right; left; rfl
    · right; right; exact hx2
  | cons s rest ih =>
    intro h acc x hx
    by_cases hc : h.start - s.stop ≤ 3 / 2
    · rw [show tailClusterGo (s :: rest) h acc = tailClusterGo rest s (h :: acc) by
        simp [tailClusterGo, hc]] at hx
      rcases ih s (h :: acc) x hx with h1 | h1 | h1
      · left; right; exact h1
      · left; rw [h1]; exact List.mem_cons_self s rest
      · rcases List.mem_cons.mp h1 with rfl | h2
        · right; left; rfl
        · right; right; exact h2
    · rw [show tailClusterGo (s :: rest) h acc = h :: acc by
        simp [tailClusterGo, hc]] at hx
      rcases List.mem_cons.mp hx with rfl | h2
      · right; left; rfl
      · right; right; exact h2

theorem tailClusterOf_subset (l : List FSeg) (x : FSeg)
    (hx : x ∈ tailClusterOf l) : x ∈ l := by
  unfold tailClusterOf at hx
  cases hl : l.getLast? with
  | none => rw [hl] at hx; cases hx
  | some lastSeg =>
    rw [hl] at hx
    rcases tailClusterGo_subset l.dropLast.reverse lastSeg [] x hx with h1 | h1 | h1
    · exact List.dropLast_subset l (List.mem_reverse.mp h1)
    · cases l with
      | nil => cases hl
      | cons a t =>
        have hne : (a :: t : List FSeg) ≠ [] := by simp
        rw [List.getLast?_eq_getLast_of_ne_nil hne] at hl
        injection hl with hl
        rw [h1, ← hl]
        exact List.getLast_mem hne
    · cases h1

theorem head_getLast_cluster_rel (cls : List (ℕ × ℕ)) (hne : cls ≠ [])
    (hpw : List.Pairwise (fun a b : ℕ × ℕ => a.2 ≤ b.1) cls)
    (hlt : ∀ p ∈ cls, p.1 < p.2) :
    (cls.headD (0, 0)).1 ≤ (cls.getLastD (0, 0)).1 ∧
    (2 ≤ cls.length → (cls.headD (0, 0)).1 < (cls.getLastD (0, 0)).1) := by
  cases cls with
  | nil => exact absurd rfl hne
  | cons c t =>
    cases ht : t with
    | nil =>
      subst ht
      simp [List.getLastD]
    | cons b t2 =>
      have htne : t ≠ [] := by rw [ht]; simp
      have hmem : t.getLastD c ∈ t := getLastD_mem t c htne
      have hrel : c.2 ≤ (t.getLastD c).1 :=
        (List.pairwise_cons.mp hpw).1 _ hmem
      have hc : c.1 < c.2 := hlt c (by simp)
      have hgl : (c :: t).getLastD (0, 0) = t.getLastD c := List.getLastD_cons ..
      rw [← ht]
      constructor
      · rw [List.headD_cons, hgl]
        omega
      · intro _
        rw [List.headD_cons, hgl]
        omega

theorem activeFlags_length (energies : List ℚ) :
    (activeFlags energies).length = energies.length := by
  simp [activeFlags]

theorem survivingClusters_facts (energies : List ℚ) (fm : ℤ) (p : ℕ × ℕ)
    (hp : p ∈ survivingClusters energies fm) :
    p.1 < p.2 ∧ p.2 ≤ energies.length := by
  have h1 := (List.mem_filter.mp hp).1
  have h2 := findClusters_mem (activeFlags energies) p h1
  rw [activeFlags_length] at h2
  exact h2

theorem survivingClusters_pairwise (energies : List ℚ) (fm : ℤ) :
    List.Pairwise (fun a b : ℕ × ℕ => a.2 ≤ b.1) (survivingClusters energies fm) :=
  (findClusters_pairwise (activeFlags energies)).filter _

theorem timestampAt_nonneg (fbc : ℤ) (h : 0 ≤ fbc) (i : ℕ) :
    0 ≤ timestampAt fbc i := by
  unfold timestampAt
  have h1 : (0 : ℚ) ≤ (i : ℚ) := Nat.cast_nonneg i
  have h2 : (0 : ℚ) ≤ (fbc : ℚ) := by exact_mod_cast h
  positivity

theorem timestampAt_mono (fbc : ℤ) (h : 0 ≤ fbc) {i j : ℕ} (hij : i ≤ j) :
    timestampAt fbc i ≤ timestampAt fbc j := by
  unfold timestampAt
  have h2 : (0 : ℚ) ≤ (fbc : ℚ) := by exact_mod_cast h
  have h3 : (i : ℚ) ≤ (j : ℚ) := by exact_mod_cast hij
  gcongr

theorem frameDurationSec_pos (fm0 : ℤ) :
    0 < frameDurationSec (coerceFrameMs fm0) := by
  rcases coerceFrameMs_cases fm0 with h | h | h <;> rw [h] <;>
    with_unfolding_all exact of_decide_eq_true rfl

theorem frameDurationSec_eq_fbc (fm0 : ℤ) :
    frameDurationSec (coerceFrameMs fm0) =
      ((frameByteCount (coerceFrameMs fm0) : ℤ) : ℚ) / 32000 := by
  rcases coerceFrameMs_cases fm0 with h | h | h <;> rw [h] <;>
    with_unfolding_all exact of_decide_eq_true rfl

theorem timestampAt_add_fd_le (fm0 : ℤ) (totalFrames : ℕ) (i : ℕ)
    (hi : i + 1 ≤ numFrames (totalFrames * sampleWidth)
      (frameByteCount (coerceFrameMs fm0))) :
    timestampAt (frameByteCount (coerceFrameMs fm0)) i +
      frameDurationSec (coerceFrameMs fm0) ≤
      (totalFrames : ℚ) / (sampleRate : ℚ) := by
  have hpos := frameByteCount_pos fm0
  have hnum : numFrames (totalFrames * sampleWidth)
      (frameByteCount (coerceFrameMs fm0)) =
      (totalFrames * sampleWidth) / (frameByteCount (coerceFrameMs fm0)).toNat :=
    numFrames_eq_div _ _ hpos
  rw [hnum] at hi
  have hN : (i + 1) * (frameByteCount (coerceFrameMs fm0)).toNat ≤
      totalFrames * sampleWidth := by
    calc (i + 1) * (frameByteCount (coerceFrameMs fm0)).toNat
        ≤ ((totalFrames * sampleWidth) / (frameByteCount (coerceFrameMs fm0)).toNat) *
            (frameByteCount (coerceFrameMs fm0)).toNat := Nat.mul_le_mul_right _ hi
      _ ≤ totalFrames * sampleWidth := Nat.div_mul_le_self _ _
  have hFt : (((frameByteCount (coerceFrameMs fm0)).toNat : ℕ) : ℚ) =
      ((frameByteCount (coerceFrameMs fm0) : ℤ) : ℚ) := by
    exact_mod_cast congrArg (fun z : ℤ => (z : ℚ))
      (Int.toNat_of_nonneg hpos.le)
  have hQ : ((i : ℚ) + 1) * ((frameByteCount (coerceFrameMs fm0) : ℤ) : ℚ) ≤
      2 * (totalFrames : ℚ) := by
    have h2 := (Nat.cast_le (α := ℚ)).mpr hN
    push_cast at h2
    rw [hFt] at h2
    simp only [sampleWidth] at h2
    push_cast at h2
    linarith
  rw [timestampAt, frameDurationSec_eq_fbc fm0]
  simp only [sampleWidth, sampleRate]
  push_cast
  have hid : (i : ℚ) * ((frameByteCount (coerceFrameMs fm0) : ℤ) : ℚ) / 2 / 16000 +
      ((frameByteCount (coerceFrameMs fm0) : ℤ) : ℚ) / 32000 =
      ((i : ℚ) + 1) * ((frameByteCount (coerceFrameMs fm0) : ℤ) : ℚ) / 32000 := by
    ring
  rw [hid]
  linarith [hQ]

theorem energyStage_error_not_detected (fm0 : ℤ) (pre post : ℚ)
    (totalFrames : ℕ) (energies : List ℚ) (r : Response)
    (h : energyStage fm0 pre post totalFrames energies = .error r) :
    r.speechDetected = false := by
  simp only [energyStage] at h
  split at h
  · injection h with h; rw [← h]; rfl
  · split at h
    · injection h with h; rw [← h]; rfl
    · split at h
      · injection h with h; rw [← h]; rfl
      · split at h
        · injection h with h; rw [← h]; rfl
        · cases h

theorem timestampAt_strict_mono (fbc : ℤ) (h : 0 < fbc) {i j : ℕ} (hij : i < j) :
    timestampAt fbc i < timestampAt fbc j := by
  unfold timestampAt
  have h2 : (0 : ℚ) < (fbc : ℚ) := by exact_mod_cast h
  have h3 : (i : ℚ) < (j : ℚ) := by exact_mod_cast hij
  have h4 : (0 : ℚ) < ((sampleWidth : ℕ) : ℚ) := by
    simp only [sampleWidth]; norm_num
  have h5 : (0 : ℚ) < ((sampleRate : ℕ) : ℚ) := by
    simp only [sampleRate]; norm_num
  have h6 : (i : ℚ) * (fbc : ℚ) < (j : ℚ) * (fbc : ℚ) :=
    mul_lt_mul_of_pos_right h3 h2
  gcongr

theorem energyStage_ok_inv (fm0 : ℤ) (pre post : ℚ) (totalFrames : ℕ)
    (energies : List ℚ) (respE : Response) (s0 : ℚ)
    (hlen : energies.length = numFrames (totalFrames * sampleWidth)
      (frameByteCount (coerceFrameMs fm0)))
    (hok : energyStage fm0 pre post totalFrames energies = .ok (respE, s0)) :
    0 ≤ respE.trimStart ∧ respE.trimStart ≤ respE.speechStart ∧
    respE.speechStart < respE.speechEnd ∧ respE.speechEnd ≤ respE.trimEnd ∧
    respE.trimEnd ≤ respE.duration ∧ 0 ≤ respE.duration ∧
    s0 = respE.speechStart ∧ 0 ≤ respE.padding.pre ∧ 0 ≤ respE.padding.post ∧
    respE.speechDetected = true ∧
    respE.speechStart = timestampAt (frameByteCount (coerceFrameMs fm0))
      ((survivingClusters energies (coerceFrameMs fm0)).headD (0, 0)).1 ∧
    respE.speechDuration = respE.speechEnd -
      timestampAt (frameByteCount (coerceFrameMs fm0))
        ((survivingClusters energies (coerceFrameMs fm0)).getLastD (0, 0)).1 ∧
    (2 ≤ (survivingClusters energies (coerceFrameMs fm0)).length →
      respE.speechStart < timestampAt (frameByteCount (coerceFrameMs fm0))
        ((survivingClusters energies (coerceFrameMs fm0)).getLastD (0, 0)).1) := by
  simp only [energyStage] at hok
  split at hok
  · cases hok
  · split at hok
    · cases hok
    · split at hok
      · cases hok
      · split at hok
        · cases hok
        · rename_i hfbc hnF hene hcls
          rw [Except.ok.injEq, Prod.mk.injEq] at hok
          obtain ⟨hresp, hs0⟩ := hok
          subst hresp
          subst hs0
          have hFpos := frameByteCount_pos fm0
          have hfc := headD_mem (survivingClusters energies (coerceFrameMs fm0)) (0, 0) hcls
          have hlc := getLastD_mem (survivingClusters energies (coerceFrameMs fm0)) (0, 0) hcls
          obtain ⟨hfc1, hfc2⟩ := survivingClusters_facts energies (coerceFrameMs fm0) _ hfc
          obtain ⟨hlc1, hlc2⟩ := survivingClusters_facts energies (coerceFrameMs fm0) _ hlc
          have hrel := head_getLast_cluster_rel
            (survivingClusters energies (coerceFrameMs fm0)) hcls
            (survivingClusters_pairwise energies (coerceFrameMs fm0))
            (fun p hp => (survivingClusters_facts energies (coerceFrameMs fm0) p hp).1)
          rw [hlen] at hfc2 hlc2
          have hlfi : ((survivingClusters energies (coerceFrameMs fm0)).getLastD (0, 0)).1 ≤
              min ((survivingClusters energies (coerceFrameMs fm0)).getLastD (0, 0)).2
                (numFrames (totalFrames * sampleWidth)
                  (frameByteCount (coerceFrameMs fm0))) - 1 := by
            omega
          have hss_cs := timestampAt_mono (frameByteCount (coerceFrameMs fm0))
            hFpos.le hrel.1
          have hcs_tsl := timestampAt_mono (frameByteCount (coerceFrameMs fm0))
            hFpos.le hlfi
          have hbud := timestampAt_add_fd_le fm0 totalFrames
            (min ((survivingClusters energies (coerceFrameMs fm0)).getLastD (0, 0)).2
              (numFrames (totalFrames * sampleWidth)
                (frameByteCount (coerceFrameMs fm0))) - 1)
            (by omega)
          have hfd := frameDurationSec_pos fm0
          have hss0 := timestampAt_nonneg (frameByteCount (coerceFrameMs fm0)) hFpos.le
            ((survivingClusters energies (coerceFrameMs fm0)).headD (0, 0)).1
          have htd0 : (0 : ℚ) ≤ (totalFrames : ℚ) / ((sampleRate : ℕ) : ℚ) := by
            have h1 : (0 : ℚ) ≤ (totalFrames : ℚ) := Nat.cast_nonneg _
            have h2 : (0 : ℚ) < ((sampleRate : ℕ) : ℚ) := by
              simp only [sampleRate]; norm_num
            positivity
          have hpre0 : (0 : ℚ) ≤ max 0 pre := le_max_left 0 pre
          have hpost0 : (0 : ℚ) ≤ max 0 post := le_max_left 0 post
          have hcs_le_se : timestampAt (frameByteCount (coerceFrameMs fm0))
              ((survivingClusters energies (coerceFrameMs fm0)).getLastD (0, 0)).1 ≤
              min ((totalFrames : ℚ) / ((sampleRate : ℕ) : ℚ))
                (timestampAt (frameByteCount (coerceFrameMs fm0))
                  (min ((survivingClusters energies (coerceFrameMs fm0)).getLastD (0, 0)).2
                    (numFrames (totalFrames * sampleWidth)
                      (frameByteCount (coerceFrameMs fm0))) - 1) +
                  frameDurationSec (coerceFrameMs fm0)) :=
            le_min (by linarith) (by linarith)
          dsimp only [initResponse]
          refine ⟨le_max_left _ _, ?_, ?_, ?_, min_le_left _ _, htd0, rfl,
            hpre0, hpost0, rfl, rfl, ?_, ?_⟩
          · exact max_le hss0 (by linarith)
          · exact lt_min (by linarith) (by linarith)
          · exact le_min (min_le_left _ _) (le_add_of_nonneg_right hpost0)
          · show max 0 _ = _
            exact max_eq_right (sub_nonneg.mpr hcs_le_se)
          · intro h2len
            exact timestampAt_strict_mono (frameByteCount (coerceFrameMs fm0)) hFpos
              (hrel.2 h2len)

theorem silenceEnd1Of_nonneg (s0 c : ℚ) (h : 0 ≤ s0) : 0 ≤ silenceEnd1Of s0 c := by
  unfold silenceEnd1Of
  split
  · exact le_trans h (le_max_left _ _)
  · exact h

theorem applyAcceptGuard_chain (respE : Response) (se1 : ℚ) (usable2 : List FSeg)
    (hsub : ∀ x ∈ usable2, 0 ≤ x.lastWordEnd) (hse1 : 0 ≤ se1)
    (h1 : 0 ≤ respE.trimStart) (h2 : respE.trimStart ≤ respE.speechStart)
    (h3 : respE.speechStart < respE.speechEnd) (h4 : respE.speechEnd ≤ respE.trimEnd)
    (h5 : respE.trimEnd ≤ respE.duration) (h6 : 0 ≤ respE.duration)
    (h8 : 0 ≤ respE.padding.pre) (h9 : 0 ≤ respE.padding.post)
    (hdet : (applyAcceptGuard respE se1 usable2).speechDetected = true) :
    BoundaryChain (applyAcceptGuard respE se1 usable2) := by
  have hce0 : 0 ≤ clusterEndOf (tailClusterOf usable2) := by
    apply qListMax_nonneg
    intro x hx
    obtain ⟨s, hs, hsx⟩ := List.mem_map.mp hx
    rw [← hsx]
    exact hsub s (tailClusterOf_subset usable2 s hs)
  have hofw : se1 ≤ overallFirstWordOf se1 usable2 := le_max_left _ _
  have hofw0 : 0 ≤ overallFirstWordOf se1 usable2 := le_trans hse1 hofw
  by_cases hacc : overallHeadTrimOf (overallFirstWordOf se1 usable2) respE.padding.pre <
      transcriptTrimEndOf respE.duration (clusterEndOf (tailClusterOf usable2))
        respE.padding.post
  · rw [applyAcceptGuard_accept respE se1 usable2 hacc] at hdet ⊢
    by_cases hg : (acceptUpdate respE (overallFirstWordOf se1 usable2) se1
        (clusterEndOf (tailClusterOf usable2))
        (overallHeadTrimOf (overallFirstWordOf se1 usable2) respE.padding.pre)
        (transcriptTrimEndOf respE.duration (clusterEndOf (tailClusterOf usable2))
          respE.padding.post) (tailClusterOf usable2)).speechEnd ≤
        (acceptUpdate respE (overallFirstWordOf se1 usable2) se1
        (clusterEndOf (tailClusterOf usable2))
        (overallHeadTrimOf (overallFirstWordOf se1 usable2) respE.padding.pre)
        (transcriptTrimEndOf respE.duration (clusterEndOf (tailClusterOf usable2))
          respE.padding.post) (tailClusterOf usable2)).speechStart
    · rw [finalGuard_of_le _ _ hg] at hdet
      cases hdet
    · rw [finalGuard_of_lt _ _ (not_le.mp hg)]
      have hg2 : max (overallFirstWordOf se1 usable2) se1 <
          clusterEndOf (tailClusterOf usable2) := by
        have hg3 := not_le.mp hg
        simpa [acceptUpdate] using hg3
      have hsls : overallFirstWordOf se1 usable2 - respE.padding.pre ≤
          overallFirstWordOf se1 usable2 := sub_le_self _ h8
      unfold BoundaryChain
      refine ⟨le_max_left _ _, ?_, hg2.le, hacc.le, ?_, min_le_left _ _, ?_⟩
      · exact le_trans (max_le hofw0 hsls) (le_max_left _ _)
      · exact le_min h6 (add_nonneg hce0 h9)
      · intro hle
        exact le_min hle (le_add_of_nonneg_right h9)
  · rw [applyAcceptGuard_reject respE se1 usable2 (not_lt.mp hacc)]
    rw [finalGuard_of_lt _ _ h3]
    unfold BoundaryChain
    exact ⟨h1, h2, h3.le, le_trans h2 (le_trans h3.le h4), le_trans h1
      (le_trans h2 (le_trans h3.le h4)), h5, fun _ => h4⟩

theorem refineAndFinish_chain (tr : Except String (List RawSeg))
    (respE : Response) (s0 : ℚ)
    (h1 : 0 ≤ respE.trimStart) (h2 : respE.trimStart ≤ respE.speechStart)
    (h3 : respE.speechStart < respE.speechEnd) (h4 : respE.speechEnd ≤ respE.trimEnd)
    (h5 : respE.trimEnd ≤ respE.duration) (h6 : 0 ≤ respE.duration)
    (h7 : 0 ≤ s0) (h8 : 0 ≤ respE.padding.pre) (h9 : 0 ≤ respE.padding.post)
    (hdet : (refineAndFinish tr respE s0).speechDetected = true) :
    BoundaryChain (refineAndFinish tr respE s0) := by
  have hchainE : BoundaryChain respE :=
    ⟨h1, h2, h3.le, le_trans h2 (le_trans h3.le h4), le_trans h1
      (le_trans h2 (le_trans h3.le h4)), h5, fun _ => h4⟩
  unfold refineAndFinish at hdet ⊢
  cases hb : refineBody tr respE s0 with
  | error e =>
    exact hchainE
  | ok r =>
    rw [hb] at hdet
    have hdet2 : r.speechDetected = true := hdet
    show BoundaryChain r
    cases tr with
    | error e2 =>
      have : refineBody (.error e2) respE s0 = .error e2 := rfl
      rw [this] at hb
      cases hb
    | ok segs =>
      rw [refineBody_ok_unfold] at hb
      by_cases hfil : filterSegments segs = []
      · rw [if_pos hfil] at hb
        injection hb with hb
        rw [← hb]
        exact hchainE
      · rw [if_neg hfil] at hb
        by_cases hu2 : usable2Of (usableOf respE.speechStart respE.speechEnd
            (filterSegments segs))
            (restartCutoffOf (normalizedSegsOf (filterSegments segs))) = []
        · rw [if_pos hu2] at hb
          cases hb
        · rw [if_neg hu2] at hb
          injection hb with hb
          rw [← hb] at hdet2 ⊢
          apply applyAcceptGuard_chain respE _ _ ?_ ?_ h1 h2 h3 h4 h5 h6 h8 h9 hdet2
          · intro x hx
            exact filterSegments_lastWordEnd_nonneg segs x
              (usableOf_subset _ _ _ x (usable2Of_subset _ _ x hx))
          · exact silenceEnd1Of_nonneg s0 _ h7

/-- Counterexample to C1 as stated: a transcript whose word timestamps
overrun the audio.  The transcript path is accepted, speechEnd is taken
from clusterEnd without clamping, and the returned result has
speechDetected true with speechEnd = 5 while trimEnd = totalDuration =
0.6, violating speechEnd ≤ trimEnd ≤ totalDuration. -/
theorem c1_counterexample_unclamped_speechEnd :
    let r := trimDeadspace 30 (2 / 25) (3 / 5) 9600 exEnergies (.ok [exSegLong])
    r.speechDetected = true ∧ r.speechEnd = 5 ∧ r.trimEnd = 3 / 5 ∧
    r.duration = 3 / 5 ∧ ¬(r.speechEnd ≤ r.trimEnd) ∧
    ¬(r.speechEnd ≤ r.duration) := by
  with_unfolding_all exact of_decide_eq_true rfl

/-- C1 amended: on every input whose energy list matches the frame count,
a returned result with speechDetected true satisfies
0 ≤ trimStart ≤ speechStart ≤ speechEnd, trimStart ≤ trimEnd and
0 ≤ trimEnd ≤ totalDuration; speechEnd ≤ trimEnd holds whenever
speechEnd ≤ totalDuration, but the transcript derived speechEnd
(clusterEnd) is not clamped to totalDuration, so the original chain can
break exactly there. -/
theorem c1_amended_boundary_chain (fm0 : ℤ) (pre post : ℚ) (totalFrames : ℕ)
    (energies : List ℚ) (tr : Except String (List RawSeg))
    (hlen : energies.length = numFrames (totalFrames * sampleWidth)
      (frameByteCount (coerceFrameMs fm0)))
    (hdet : (trimDeadspace fm0 pre post totalFrames energies tr).speechDetected = true) :
    BoundaryChain (trimDeadspace fm0 pre post totalFrames energies tr) := by
  unfold trimDeadspace at hdet ⊢
  cases he : energyStage fm0 pre post totalFrames energies with
  | error r =>
    rw [he] at hdet
    have hdet2 : r.speechDetected = true := hdet
    rw [energyStage_error_not_detected fm0 pre post totalFrames energies r he] at hdet2
    cases hdet2
  | ok pair =>
    obtain ⟨respE, s0⟩ := pair
    rw [he] at hdet
    have hdet2 : (refineAndFinish tr respE s0).speechDetected = true := hdet
    show BoundaryChain (refineAndFinish tr respE s0)
    obtain ⟨i1, i2, i3, i4, i5, i6, i7, i8, i9, _, i11, _, _⟩ :=
      energyStage_ok_inv fm0 pre post totalFrames energies respE s0 hlen he
    have h7 : 0 ≤ s0 := by
      rw [i7]
      exact le_trans i1 i2
    exact refineAndFinish_chain tr respE s0 i1 i2 i3 i4 i5 i6 h7 i8 i9 hdet2

/-- Witness for C1 amended at the example profile with an empty
transcript list. -/
theorem c1_amended_boundary_chain_witness :
    BoundaryChain (trimDeadspace 30 (2 / 25) (3 / 5) 9600 exEnergies (.ok [])) :=
  c1_amended_boundary_chain 30 (2 / 25) (3 / 5) 9600 exEnergies (.ok [])
    (by with_unfolding_all exact of_decide_eq_true rfl)
    (by with_unfolding_all exact of_decide_eq_true rfl)

/-- C10: in the energy derived result speechStart is the timestamp of the
first surviving cluster while speechDuration is measured from the start
of the last surviving cluster, so with two or more surviving clusters the
returned speechDuration is strictly smaller than
speechEnd - speechStart. -/
theorem c10_duration_from_last_cluster (fm0 : ℤ) (pre post : ℚ)
    (totalFrames : ℕ) (energies : List ℚ) (respE : Response) (s0 : ℚ)
    (hlen : energies.length = numFrames (totalFrames * sampleWidth)
      (frameByteCount (coerceFrameMs fm0)))
    (hok : energyStage fm0 pre post totalFrames energies = .ok (respE, s0)) :
    respE.speechStart = timestampAt (frameByteCount (coerceFrameMs fm0))
      ((survivingClusters energies (coerceFrameMs fm0)).headD (0, 0)).1 ∧
    respE.speechDuration = respE.speechEnd -
      timestampAt (frameByteCount (coerceFrameMs fm0))
        ((survivingClusters energies (coerceFrameMs fm0)).getLastD (0, 0)).1 ∧
    (2 ≤ (survivingClusters energies (coerceFrameMs fm0)).length →
      respE.speechDuration < respE.speechEnd - respE.speechStart) := by
  obtain ⟨_, _, _, _, _, _, _, _, _, _, i11, i12, i13⟩ :=
    energyStage_ok_inv fm0 pre post totalFrames energies respE s0 hlen hok
  refine ⟨i11, i12, ?_⟩
  intro h2len
  have hlt := i13 h2len
  rw [i12]
  linarith

/-- The energy stage response for the two burst profile. -/
def exRespE2 : Response :=
  match energyStage 30 (2 / 25) (3 / 5) 9600 exEnergiesTwo with
  | .ok (r, _) => r
  | .error r => r

/-- Witness for C10 at the two burst profile: clusters (4,8) and (14,18),
speechStart 0.12, speechDuration 0.12 strictly below
speechEnd - speechStart = 0.42. -/
theorem c10_duration_from_last_cluster_witness :
    exRespE2.speechStart = timestampAt (frameByteCount (coerceFrameMs 30))
      ((survivingClusters exEnergiesTwo (coerceFrameMs 30)).headD (0, 0)).1 ∧
    exRespE2.speechDuration = exRespE2.speechEnd -
      timestampAt (frameByteCount (coerceFrameMs 30))
        ((survivingClusters exEnergiesTwo (coerceFrameMs 30)).getLastD (0, 0)).1 ∧
    (2 ≤ (survivingClusters exEnergiesTwo (coerceFrameMs 30)).length →
      exRespE2.speechDuration < exRespE2.speechEnd - exRespE2.speechStart) :=
  c10_duration_from_last_cluster 30 (2 / 25) (3 / 5) 9600 exEnergiesTwo
    exRespE2 (3 / 25)
    (by with_unfolding_all exact of_decide_eq_true rfl)
    (by with_unfolding_all exact of_decide_eq_true rfl)

end Kallio
